import Mathlib

/-!
Verification of the rss2email feed-ingestion engine.

The program's compiled modules are `config`, `error`, `log` and `model`
(declared in `main.rs`); `model.rs` holds the database, the fetch-and-send
session and the sender/fetcher interfaces.  `key_value.rs` additionally holds
the binary key/value codec.  This file gives a shallow embedding of those
parts and proves the specification's claims about them.

Modelling conventions:
* Rust `String` is Lean `String`.
* `HashMap<String, V>` is an association list `List (String × V)`; HashMap
  iteration order is unspecified in Rust, so enumeration order in the model
  is the list order (insertion order).  The HashMap key-uniqueness invariant
  is the `WF` predicates below.
* `chrono::DateTime<Utc>` is modelled as an abstract timestamp (`Nat`).
* `Error` values are modelled by their reason message (`String`); the Rust
  `Error` type carries only a message and an optional cause.
* The `Sender` trait object is modelled as a pure function from the `send`
  arguments to `Except String Unit`; the session additionally returns the
  trace of sender invocations so that "handed to the Sender" is observable.
* The `Fetcher` trait is arbitrary (any impl may yield any stream), so the
  session is parameterized directly by the list of stream results.
* The logger writes to stderr; the session returns the list of logged
  events, with each `format!` message abstracted to a structured event.
* The `.unwrap()` on `self.feeds.get_mut(&feed_url)` in
  `fetch_and_send_feeds` panics when a fetched URL is not a database key;
  a panic is modelled by the distinguished outcome `SessionResult.panicked`.
-/

namespace Rss2Email

/-- Association-list lookup, the model of `HashMap::get`. -/
def alookup {α : Type} : List (String × α) → String → Option α
  | [], _ => none
  | p :: rest, k => if p.1 = k then some p.2 else alookup rest k

/-- Model of `HashMap::contains_key`. -/
def acontains {α : Type} (l : List (String × α)) (k : String) : Bool :=
  (alookup l k).isSome

/-- Model of `HashMap::remove` (drops the entry with the given key). -/
def aerase {α : Type} (l : List (String × α)) (k : String) : List (String × α) :=
  l.filter (fun p => p.1 != k)

/-- Model of `HashMap::insert`: replace the value if the key is present,
otherwise add the entry. -/
def ainsert {α : Type} (l : List (String × α)) (k : String) (v : α) :
    List (String × α) :=
  if acontains l k then l.map (fun p => if p.1 = k then (k, v) else p)
  else l ++ [(k, v)]

/-- Struct `FeedItem` from `model.rs`: one item record of a feed.  `last_observed`
is the `DateTime<Utc>` timestamp. -/
structure FeedItem where
  last_observed : Nat
  title : Option String
  link : Option String
  content : Option String
deriving DecidableEq

/-- Struct `Feed` from `model.rs`: a feed record, with its item records keyed by
item id. -/
structure Feed where
  title : Option String
  items : List (String × FeedItem)
deriving DecidableEq

/-- Constructor `Feed::new`. -/
def Feed.new : Feed := ⟨none, []⟩

/-- The HashMap key-uniqueness invariant for a feed's item map. -/
def Feed.WF (f : Feed) : Prop := (f.items.map (fun p => p.1)).Nodup

instance (f : Feed) : Decidable f.WF := by
  unfold Feed.WF
  infer_instance

/-- Struct `Database` from `model.rs`.  The `path` field is a file-system location
used only by `create`/`open`/`commit` and is not part of the feed state. -/
structure Database where
  feeds : List (String × Feed)
deriving DecidableEq

/-- The HashMap invariants for a database: feed URLs are unique keys and
each feed's item map has unique keys. -/
def Database.WF (db : Database) : Prop :=
  (db.feeds.map (fun p => p.1)).Nodup ∧ ∀ p ∈ db.feeds, p.2.WF

instance (db : Database) : Decidable db.WF := by
  unfold Database.WF
  infer_instance

/-- Operation `Database::add_feed`. -/
def Database.add_feed (db : Database) (feed_url : String) :
    Except String Database :=
  if acontains db.feeds feed_url then
    .error ("Feed already exists in database (feed URL: " ++ feed_url ++ ")")
  else
    .ok ⟨ainsert db.feeds feed_url Feed.new⟩

/-- Operation `Database::remove_feed`. -/
def Database.remove_feed (db : Database) (feed_url : String) :
    Except String Database :=
  match alookup db.feeds feed_url with
  | none =>
    .error ("Feed does not exist in database (feed URL: " ++ feed_url ++ ")")
  | some _ => .ok ⟨aerase db.feeds feed_url⟩

/-- Operation `Database::feed_urls`: iterate the feed map and yield each key. -/
def Database.feed_urls (db : Database) : List String :=
  db.feeds.map (fun p => p.1)

/-- Struct `FetchAndSendOptions` from `model.rs`. -/
structure FetchAndSendOptions where
  feed_urls : Option (List String)
  no_send : Bool
deriving DecidableEq

/-- Constructor `FetchAndSendOptions::new` / `default`. -/
def FetchAndSendOptions.new : FetchAndSendOptions := ⟨none, false⟩

/-- Predicate `FetchAndSendOptions::should_fetch`. -/
def FetchAndSendOptions.should_fetch (o : FetchAndSendOptions)
    (feed_url : String) : Bool :=
  match o.feed_urls with
  | some m => m.contains feed_url
  | none => true

/-- The `feeds_to_fetch` computation at the start of
`Database::fetch_and_send_feeds`: all stored feed URLs filtered by
`should_fetch`. -/
def feeds_to_fetch (db : Database) (options : FetchAndSendOptions) :
    List String :=
  (db.feeds.map (fun p => p.1)).filter (fun u => options.should_fetch u)

/-- One result yielded by a `Fetcher`'s stream: either a pipeline error
(its message) or a fetched `(feed_url, feed)` pair. -/
abbrev FetchResult := Except String (String × Feed)

/-- The model of the `Sender` trait: a pure function over the four `send`
arguments, returning the `Result<(), Error>` of the call. -/
abbrev SenderFn := String → Feed → String → FeedItem → Except String Unit

instance {ε α : Type} [DecidableEq ε] [DecidableEq α] :
    DecidableEq (Except ε α) := fun a b =>
  match a, b with
  | .ok x, .ok y =>
    if h : x = y then isTrue (by rw [h])
    else isFalse (fun hh => h (Except.ok.inj hh))
  | .ok _, .error _ => isFalse (fun h => Except.noConfusion h)
  | .error _, .ok _ => isFalse (fun h => Except.noConfusion h)
  | .error e1, .error e2 =>
    if h : e1 = e2 then isTrue (by rw [h])
    else isFalse (fun hh => h (Except.error.inj hh))

/-- One invocation of `Sender::send` during a session, with its arguments
and its result. -/
structure SendAttempt where
  feed_url : String
  feed : Feed
  item_id : String
  item : FeedItem
  result : Except String Unit
deriving DecidableEq

/-- Whether a recorded sender invocation returned `Ok`. -/
def SendAttempt.succeeded (a : SendAttempt) : Bool :=
  match a.result with
  | .ok _ => true
  | .error _ => false

/-- A structured view of the messages logged by `fetch_and_send_feeds`:
the fetch-stream error branch, the per-item "Sending"/"Not sending" line
and the sender-failure line. -/
inductive LogEvent where
  | fetchError (message : String)
  | sendItem (sending : Bool) (feed_url : String) (item_title : Option String)
  | sendError (item_id : String) (message : String)
deriving DecidableEq

/-- The state after one pass of the per-item `for` loop of
`fetch_and_send_feeds` (lines 204-235 of `model.rs`): the partially
drained `new_feed`, the updated database entry `old_feed`, the sender
invocations and log events so far, and whether `break 'outer` ran. -/
structure ItemLoopOut where
  new_feed : Feed
  old_feed : Feed
  trace : List SendAttempt
  log : List LogEvent
  aborted : Bool

/-- The per-item `for` loop of `fetch_and_send_feeds`, iterating over the
new item ids (`new_item_ids.difference(&old_item_ids)`).  Each iteration
removes the item from `new_feed`, logs the "Sending"/"Not sending" line,
invokes the sender unless `no_send`, and on success inserts the item into
the database entry `old_feed`; a sender error logs and aborts the whole
session (`break 'outer`). -/
def process_new_items (send : SenderFn) (no_send : Bool) (feed_url : String) :
    Feed → Feed → List (String × FeedItem) → ItemLoopOut
  | nf, old, [] => ⟨nf, old, [], [], false⟩
  | nf, old, p :: rest =>
    let item := p.2
    let nf2 : Feed := ⟨nf.title, aerase nf.items p.1⟩
    let ev := LogEvent.sendItem (!no_send) feed_url item.title
    if no_send then
      let out := process_new_items send no_send feed_url nf2
        ⟨old.title, ainsert old.items p.1 item⟩ rest
      ⟨out.new_feed, out.old_feed, out.trace, ev :: out.log, out.aborted⟩
    else
      match send feed_url nf2 p.1 item with
      | .error e =>
        ⟨nf2, old, [⟨feed_url, nf2, p.1, item, .error e⟩],
          [ev, .sendError p.1 e], true⟩
      | .ok _ =>
        let out := process_new_items send no_send feed_url nf2
          ⟨old.title, ainsert old.items p.1 item⟩ rest
        ⟨out.new_feed, out.old_feed,
          ⟨feed_url, nf2, p.1, item, .ok ()⟩ :: out.trace,
          ev :: out.log, out.aborted⟩

/-- One iteration of the outer `while` loop for a successfully fetched
`(feed_url, new_feed)`: refresh the stored title if the fetched one is
present and differs, then run the per-item loop over the ids present in
`new_feed` but not in the stored feed. -/
def process_feed (send : SenderFn) (no_send : Bool) (feed_url : String)
    (old : Feed) (nf : Feed) : ItemLoopOut :=
  let old1 : Feed :=
    if old.title ≠ nf.title ∧ nf.title.isSome then ⟨nf.title, old.items⟩
    else old
  let newPairs := nf.items.filter (fun p => !(acontains old.items p.1))
  process_new_items send no_send feed_url nf old1 newPairs

/-- The outcome of `Database::fetch_and_send_feeds`: either the panic of
the `get_mut(..).unwrap()` on an unknown fetched URL, or the final
database together with the sender-invocation trace, the log and the
function's returned `Result<(), Error>`. -/
inductive SessionResult where
  | panicked
  | finished (db : Database) (trace : List SendAttempt)
      (log : List LogEvent) (ret : Except String Unit)
deriving DecidableEq

/-- The `while let Some(fetch_result) = spawn.wait_stream()` loop of
`fetch_and_send_feeds`: a stream error is logged and breaks the loop; a
fetched feed is reconciled by `process_feed` and its updated entry stored;
a sender failure (`aborted`) stops all processing.  Every exit path
returns `Ok(())`. -/
def run_loop (send : SenderFn) (options : FetchAndSendOptions) :
    Database → List FetchResult → SessionResult
  | db, [] => .finished db [] [] (.ok ())
  | db, .error e :: _ => .finished db [] [.fetchError e] (.ok ())
  | db, .ok (feed_url, nf) :: rest =>
    match alookup db.feeds feed_url with
    | none => .panicked
    | some old =>
      let out := process_feed send options.no_send feed_url old nf
      let db2 : Database := ⟨ainsert db.feeds feed_url out.old_feed⟩
      if out.aborted then .finished db2 out.trace out.log (.ok ())
      else
        match run_loop send options db2 rest with
        | .panicked => .panicked
        | .finished db3 tr lg ret =>
          .finished db3 (out.trace ++ tr) (out.log ++ lg) ret

/-- Operation `Database::fetch_and_send_feeds`, parameterized by the list of results
the fetcher's stream yields (the `Fetcher` impl is arbitrary). -/
def Database.fetch_and_send_feeds (db : Database) (send : SenderFn)
    (options : FetchAndSendOptions) (results : List FetchResult) :
    SessionResult :=
  run_loop send options db results

/-- Whether item id `i` is recorded in the database for feed `f`. -/
def recordedB (db : Database) (f i : String) : Bool :=
  match alookup db.feeds f with
  | some fd => acontains fd.items i
  | none => false

/-- The stored item record for feed `f` and item id `i`, when present. -/
def item_lookup (db : Database) (f i : String) : Option FeedItem :=
  match alookup db.feeds f with
  | some fd => alookup fd.items i
  | none => none

/-- A sender whose `send` always returns `Ok(())` (the shape of the test
suite's `RecorderSender`). -/
def always_ok_sender : SenderFn := fun _ _ _ _ => .ok ()

/-- The final database of a session outcome (`none` when the session
panicked). -/
def SessionResult.final_db : SessionResult → Option Database
  | .panicked => none
  | .finished db _ _ _ => some db

/-!
Embedding of `key_value.rs`, the binary key/value codec.

* A byte is a `Nat` below 256; buffers are `List Nat`.
* A Rust `&str`/`String` field is represented by its UTF-8 byte sequence
  (a `List Nat`): `write_str_eof` writes the string's bytes verbatim and
  `read_str_eof` returns the remaining buffer (the `from_utf8` validity
  check always succeeds on bytes that came from a string, which is the
  only case the round-trip theorems quantify over).
* `std::time::SystemTime` is modelled as a signed count of nanoseconds
  relative to `UNIX_EPOCH` (an `Int`); `duration_since(UNIX_EPOCH)`
  succeeds exactly when that count is nonnegative and yields the
  `(u64 seconds, u32 subsecond-nanoseconds)` pair.
* Modelled from the spec: `rmp_serde`, the external MessagePack value
  serializer used by `FeedValue`/`ItemValue`, is an external crate and not
  part of this repository; the spec describes it only as a generic
  structured serializer whose decode inverts encode.  It is modelled as a
  field-by-field serializer of the `*Serializable` structs with a matching
  decoder (big-endian fixed-width integers in struct field order).
-/

namespace KV

/-- Big-endian 4-byte encoding of a `u32` (`byteorder::WriteBytesExt::write_u32`). -/
def u32be (n : Nat) : List Nat :=
  [n / 2 ^ 24 % 256, n / 2 ^ 16 % 256, n / 2 ^ 8 % 256, n % 256]

/-- Big-endian 8-byte encoding of a `u64`. -/
def u64be (n : Nat) : List Nat :=
  [n / 2 ^ 56 % 256, n / 2 ^ 48 % 256, n / 2 ^ 40 % 256, n / 2 ^ 32 % 256,
   n / 2 ^ 24 % 256, n / 2 ^ 16 % 256, n / 2 ^ 8 % 256, n % 256]

/-- Decoder `Reader::read_u32`: consume four bytes big-endian; fail if fewer remain. -/
def read_u32 : List Nat → Except String (Nat × List Nat)
  | b0 :: b1 :: b2 :: b3 :: rest =>
    .ok ((((b0 * 256 + b1) * 256 + b2) * 256 + b3), rest)
  | _ => .error "Failed to decode u32"

/-- The `KeyKind` discriminant values. -/
def KEY_KIND_FEED : Nat := 1

def KEY_KIND_ITEM : Nat := 2

/-- Struct `FeedKey`: `feed_url` as its UTF-8 bytes. -/
structure FeedKey where
  feed_url : List Nat
deriving DecidableEq

/-- Encoder `FeedKey::to_bytes` (via the complete `FeedSearch` builder): the feed
key kind discriminant followed by the URL bytes to end of buffer. -/
def FeedKey.to_bytes (k : FeedKey) : List Nat :=
  u32be KEY_KIND_FEED ++ k.feed_url

/-- Decoder `FeedKey::from_bytes`: read the kind, require the feed kind, take the
rest as the URL. -/
def FeedKey.from_bytes (source : List Nat) : Except String FeedKey :=
  match read_u32 source with
  | .error e => .error e
  | .ok (kind, rest) =>
    if kind = KEY_KIND_FEED then .ok ⟨rest⟩
    else .error "Got unexpected key kind value"

/-- Struct `ItemKey`: a `u32` feed id and the item id as its UTF-8 bytes. -/
structure ItemKey where
  feed_id : Nat
  item_id : List Nat
deriving DecidableEq

/-- Encoder `ItemKey::to_bytes` (via the `ItemSearch` builder): item kind
discriminant, big-endian feed id, then the item id bytes. -/
def ItemKey.to_bytes (k : ItemKey) : List Nat :=
  u32be KEY_KIND_ITEM ++ u32be k.feed_id ++ k.item_id

/-- Decoder `ItemKey::from_bytes`. -/
def ItemKey.from_bytes (source : List Nat) : Except String ItemKey :=
  match read_u32 source with
  | .error e => .error e
  | .ok (kind, rest) =>
    if kind = KEY_KIND_ITEM then
      match read_u32 rest with
      | .error e => .error e
      | .ok (fid, rest2) => .ok ⟨fid, rest2⟩
    else .error "Got unexpected key kind value"

/-- Type `std::time::SystemTime` modelled as nanoseconds relative to `UNIX_EPOCH`. -/
abbrev SystemTime := Int

/-- Conversion `SystemTime::duration_since(UNIX_EPOCH)`: succeeds iff the time is at
or after the epoch, yielding `(as_secs, subsec_nanos)`. -/
def duration_since_epoch (t : SystemTime) : Except String (Nat × Nat) :=
  if 0 ≤ t then .ok (t.toNat / 1000000000, t.toNat % 1000000000)
  else .error "second time provided was later than self"

/-- Conversion `UNIX_EPOCH + Duration::new(secs, nanos)`. -/
def epoch_plus (secs nanos : Nat) : SystemTime :=
  Int.ofNat (secs * 1000000000 + nanos)

/-- Struct `FeedValue`: the feed id and the time the feed was added. -/
structure FeedValue where
  feed_id : Nat
  when_added : SystemTime
deriving DecidableEq

/-- Encoder `FeedValue::to_bytes`: convert `when_added` to a duration since the
epoch (panicking - modelled as an error - for pre-epoch times) and
serialize `FeedValueSerializable \x7b feed_id, when_added: (secs, nanos) \x7d`
field by field through the modelled value serializer. -/
def FeedValue.to_bytes (v : FeedValue) : Except String (List Nat) :=
  match duration_since_epoch v.when_added with
  | .error e => .error e
  | .ok (secs, nanos) => .ok (u32be v.feed_id ++ u64be secs ++ u32be nanos)

/-- Decoder `FeedValue::from_bytes`: decode the serializable struct and add the
duration back to the epoch. -/
def FeedValue.from_bytes (source : List Nat) : Except String FeedValue :=
  match read_u32 source with
  | .error e => .error e
  | .ok (fid, rest) =>
    match read_u32 rest with
    | .error e => .error e
    | .ok (hi, rest2) =>
      match read_u32 rest2 with
      | .error e => .error e
      | .ok (lo, rest3) =>
        match read_u32 rest3 with
        | .error e => .error e
        | .ok (nanos, _) =>
          .ok ⟨fid, epoch_plus (hi * 2 ^ 32 + lo) nanos⟩

/-- Struct `ItemValue`: the time the item was added. -/
structure ItemValue where
  when_added : SystemTime
deriving DecidableEq

/-- Encoder `ItemValue::to_bytes`. -/
def ItemValue.to_bytes (v : ItemValue) : Except String (List Nat) :=
  match duration_since_epoch v.when_added with
  | .error e => .error e
  | .ok (secs, nanos) => .ok (u64be secs ++ u32be nanos)

/-- Decoder `ItemValue::from_bytes`. -/
def ItemValue.from_bytes (source : List Nat) : Except String ItemValue :=
  match read_u32 source with
  | .error e => .error e
  | .ok (hi, rest) =>
    match read_u32 rest with
    | .error e => .error e
    | .ok (lo, rest2) =>
      match read_u32 rest2 with
      | .error e => .error e
      | .ok (nanos, _) => .ok ⟨epoch_plus (hi * 2 ^ 32 + lo) nanos⟩

end KV

/-! ### Concrete fixtures used by the closed witness and counterexample
theorems below -/

/-- A feed item with a given timestamp and no title, link or content. -/
def ex_item (t : Nat) : FeedItem := ⟨t, none, none, none⟩

/-- Default options: fetch all feeds, `no_send = false`. -/
def ex_opts : FetchAndSendOptions := ⟨none, false⟩

/-- A database holding one freshly added feed `"a"`. -/
def ex_db0 : Database := ⟨[("a", Feed.new)]⟩

/-- A fetched feed titled `"T"` with the single item `"i"`. -/
def ex_nf : Feed := ⟨some "T", [("i", ex_item 1)]⟩

/-- A one-feed fetch stream yielding `ex_nf` for `"a"`. -/
def ex_results : List FetchResult := [.ok ("a", ex_nf)]

/-- State `ex_db0` after a session in which the send of `"i"` failed: the feed
title was refreshed but the item was not recorded. -/
def ex_db1 : Database := ⟨[("a", ⟨some "T", []⟩)]⟩

/-- State `ex_db0` after a successful session: item `"i"` recorded. -/
def ex_db2 : Database := ⟨[("a", ⟨some "T", [("i", ex_item 1)]⟩)]⟩

/-- A sender that always fails. -/
def ex_fail_sender : SenderFn := fun _ _ _ _ => .error "smtp down"

/-- A sender that succeeds exactly on item id `"i1"`. -/
def ex_sender2 : SenderFn := fun _ _ i _ =>
  if i = "i1" then .ok () else .error "smtp down"

/-- A fetched feed with three new items. -/
def ex_nf3 : Feed :=
  ⟨some "T", [("i1", ex_item 1), ("i2", ex_item 2), ("i3", ex_item 3)]⟩

/-- State `ex_db0` after the partial-failure session: exactly `"i1"` recorded. -/
def ex_db2b : Database := ⟨[("a", ⟨some "T", [("i1", ex_item 1)]⟩)]⟩

/-- Byte-lexicographic comparison of byte sequences, the native key order
of the ordered key-value store described by the spec. -/
def bytes_lex_lt : List Nat → List Nat → Bool
  | [], [] => false
  | [], _ :: _ => true
  | _ :: _, [] => false
  | a :: as, b :: bs =>
    if a < b then true else if a = b then bytes_lex_lt as bs else false

/-! ### Codec lemmas -/

namespace KV

theorem read_u32_u32be (n : Nat) (hn : n < 2 ^ 32) (rest : List Nat) :
    read_u32 (u32be n ++ rest) = .ok (n, rest) := by
  simp only [u32be, read_u32, List.cons_append, List.nil_append, Except.ok.injEq,
    Prod.mk.injEq, and_true]
  omega

theorem read_u32_u32be_eof (n : Nat) (hn : n < 2 ^ 32) :
    read_u32 (u32be n) = .ok (n, []) := by
  have h := read_u32_u32be n hn []
  simpa using h

theorem read_u32_u64be_hi (n : Nat) (hn : n < 2 ^ 64) (rest : List Nat) :
    read_u32 (u64be n ++ rest) = .ok (n / 2 ^ 32, u32be (n % 2 ^ 32) ++ rest) := by
  simp only [u64be, u32be, read_u32, List.cons_append, List.nil_append,
    Except.ok.injEq, Prod.mk.injEq, List.cons.injEq, and_true]
  refine ⟨?_, ?_, ?_, ?_, ?_⟩ <;> omega

theorem secs_nanos_recompose (x : Int) (hx : 0 ≤ x) :
    ((((x.toNat / 1000000000) / 2 ^ 32 * 2 ^ 32 + (x.toNat / 1000000000) % 2 ^ 32) *
      1000000000 + x.toNat % 1000000000 : Nat) : Int) = x := by
  omega

theorem feed_key_round_trip (k : FeedKey) :
    FeedKey.from_bytes k.to_bytes = .ok k := by
  simp only [FeedKey.to_bytes, FeedKey.from_bytes, KEY_KIND_FEED]
  rw [read_u32_u32be 1 (by decide)]
  simp

theorem item_key_round_trip (k : ItemKey) (h : k.feed_id < 2 ^ 32) :
    ItemKey.from_bytes k.to_bytes = .ok k := by
  simp only [ItemKey.to_bytes, ItemKey.from_bytes, KEY_KIND_ITEM,
    List.append_assoc]
  rw [read_u32_u32be 2 (by decide)]
  simp only [if_pos rfl]
  rw [read_u32_u32be k.feed_id h]
  simp

theorem feed_value_round_trip (v : FeedValue) (hid : v.feed_id < 2 ^ 32)
    (hepoch : 0 ≤ v.when_added)
    (hsecs : v.when_added.toNat / 1000000000 < 2 ^ 64) :
    ∃ b, v.to_bytes = .ok b ∧ FeedValue.from_bytes b = .ok v := by
  obtain ⟨fid, t⟩ := v
  simp only at hid hepoch hsecs
  have hto : FeedValue.to_bytes ⟨fid, t⟩ = .ok (u32be fid ++
      u64be (t.toNat / 1000000000) ++ u32be (t.toNat % 1000000000)) := by
    simp [FeedValue.to_bytes, duration_since_epoch, hepoch]
  refine ⟨_, hto, ?_⟩
  have hn : t.toNat % 1000000000 < 2 ^ 32 := by omega
  simp only [FeedValue.from_bytes, List.append_assoc,
    read_u32_u32be fid hid,
    read_u32_u64be_hi _ hsecs,
    read_u32_u32be _ (by omega : t.toNat / 1000000000 % 2 ^ 32 < 2 ^ 32),
    read_u32_u32be_eof _ hn]
  simp only [epoch_plus, Except.ok.injEq, FeedValue.mk.injEq, true_and,
    Int.ofNat_eq_coe]
  exact secs_nanos_recompose t hepoch

theorem item_value_round_trip (v : ItemValue) (hepoch : 0 ≤ v.when_added)
    (hsecs : v.when_added.toNat / 1000000000 < 2 ^ 64) :
    ∃ b, v.to_bytes = .ok b ∧ ItemValue.from_bytes b = .ok v := by
  obtain ⟨t⟩ := v
  simp only at hepoch hsecs
  have hto : ItemValue.to_bytes ⟨t⟩ = .ok (u64be (t.toNat / 1000000000) ++
      u32be (t.toNat % 1000000000)) := by
    simp [ItemValue.to_bytes, duration_since_epoch, hepoch]
  refine ⟨_, hto, ?_⟩
  have hn : t.toNat % 1000000000 < 2 ^ 32 := by omega
  simp only [ItemValue.from_bytes, List.append_assoc,
    read_u32_u64be_hi _ hsecs,
    read_u32_u32be _ (by omega : t.toNat / 1000000000 % 2 ^ 32 < 2 ^ 32),
    read_u32_u32be_eof _ hn]
  simp only [epoch_plus, Except.ok.injEq, ItemValue.mk.injEq, Int.ofNat_eq_coe]
  exact secs_nanos_recompose t hepoch

end KV

/-! ### Association-list (HashMap model) lemmas -/

theorem alookup_nil {α : Type} (k : String) : alookup ([] : List (String × α)) k = none := rfl

theorem alookup_cons {α : Type} (p : String × α) (l : List (String × α)) (k : String) :
    alookup (p :: l) k = if p.1 = k then some p.2 else alookup l k := rfl

theorem acontains_false_iff {α : Type} (l : List (String × α)) (k : String) :
    acontains l k = false ↔ alookup l k = none := by
  cases h : alookup l k <;> simp [acontains, h]

theorem acontains_true_iff {α : Type} (l : List (String × α)) (k : String) :
    acontains l k = true ↔ ∃ v, alookup l k = some v := by
  cases h : alookup l k <;> simp [acontains, h]

theorem acontains_iff_mem_keys {α : Type} (l : List (String × α)) (k : String) :
    acontains l k = true ↔ k ∈ l.map (fun p => p.1) := by
  induction l with
  | nil => simp [acontains, alookup]
  | cons p rest ih =>
    simp only [List.map_cons, List.mem_cons]
    by_cases h : p.1 = k
    · simp [acontains, alookup, h]
    · have he : acontains (p :: rest) k = acontains rest k := by
        simp [acontains, alookup, h]
      rw [he, ih]
      constructor
      · intro hm
        exact Or.inr hm
      · intro hm
        cases hm with
        | inl he2 => exact absurd he2.symm h
        | inr hm2 => exact hm2

theorem alookup_append_new {α : Type} (l : List (String × α)) (k k' : String)
    (v : α) (h : alookup l k = none) :
    alookup (l ++ [(k, v)]) k' = if k' = k then some v else alookup l k' := by
  induction l with
  | nil =>
    simp only [List.nil_append, alookup]
    by_cases hk : k = k'
    · simp [hk]
    · rw [if_neg hk, if_neg (fun e => hk e.symm)]
  | cons p rest ih =>
    simp only [alookup, List.cons_append] at h ⊢
    by_cases hp : p.1 = k
    · simp [hp] at h
    · simp only [if_neg hp] at h
      by_cases hpk : p.1 = k'
      · have hk : ¬ k' = k := fun e => hp (hpk.trans e)
        simp [hpk, hk]
      · simp only [if_neg hpk]
        exact ih h

theorem alookup_mapreplace_self {α : Type} (l : List (String × α)) (k : String)
    (v : α) (h : acontains l k = true) :
    alookup (l.map (fun p => if p.1 = k then (k, v) else p)) k = some v := by
  induction l with
  | nil => simp [acontains, alookup] at h
  | cons p rest ih =>
    by_cases hp : p.1 = k
    · simp [alookup, hp]
    · have hrest : acontains rest k = true := by
        simpa [acontains, alookup, hp] using h
      simp only [List.map_cons, alookup, if_neg hp]
      exact ih hrest

theorem alookup_mapreplace_ne {α : Type} (l : List (String × α)) (k k' : String)
    (v : α) (hk : ¬ k' = k) :
    alookup (l.map (fun p => if p.1 = k then (k, v) else p)) k' = alookup l k' := by
  induction l with
  | nil => simp [alookup]
  | cons p rest ih =>
    by_cases hp : p.1 = k
    · have hkk : ¬ k = k' := fun e => hk e.symm
      simp only [List.map_cons, if_pos hp, alookup, if_neg hkk]
      rw [if_neg (fun e : p.1 = k' => hk (e.symm.trans hp))]
      exact ih
    · simp only [List.map_cons, if_neg hp, alookup]
      by_cases hpk : p.1 = k'
      · simp [hpk]
      · rw [if_neg hpk, if_neg hpk]
        exact ih

theorem alookup_ainsert {α : Type} (l : List (String × α)) (k k' : String) (v : α) :
    alookup (ainsert l k v) k' = if k' = k then some v else alookup l k' := by
  unfold ainsert
  by_cases hc : acontains l k
  · rw [if_pos hc]
    by_cases hk : k' = k
    · subst hk
      rw [if_pos rfl]
      exact alookup_mapreplace_self l k' v hc
    · rw [if_neg hk]
      exact alookup_mapreplace_ne l k k' v hk
  · rw [if_neg hc]
    have hn : alookup l k = none := (acontains_false_iff l k).mp (by simpa using hc)
    exact alookup_append_new l k k' v hn

theorem acontains_ainsert {α : Type} (l : List (String × α)) (k k' : String) (v : α) :
    acontains (ainsert l k v) k' = (k' = k || acontains l k') := by
  by_cases h : k' = k <;> simp [acontains, alookup_ainsert, h]

theorem keys_ainsert_mem {α : Type} (l : List (String × α)) (k : String) (v : α)
    (h : acontains l k = true) :
    (ainsert l k v).map (fun p => p.1) = l.map (fun p => p.1) := by
  unfold ainsert
  rw [if_pos h, List.map_map]
  apply List.map_congr_left
  intro p _
  by_cases hp : p.1 = k <;> simp [hp]

theorem keys_ainsert_new {α : Type} (l : List (String × α)) (k : String) (v : α)
    (h : acontains l k = false) :
    (ainsert l k v).map (fun p => p.1) = l.map (fun p => p.1) ++ [k] := by
  unfold ainsert
  rw [if_neg (by simp [h]), List.map_append]
  simp

theorem recordedB_eq (db : Database) (f i : String) :
    recordedB db f i = match alookup db.feeds f with
      | some fd => acontains fd.items i
      | none => false := rfl

theorem recordedB_of_lookup (db : Database) (f i : String) (fd : Feed)
    (h : alookup db.feeds f = some fd) :
    recordedB db f i = acontains fd.items i := by
  rw [recordedB_eq, h]

/-! ### Equation lemmas for the session loops -/

theorem pni_nil (send : SenderFn) (ns : Bool) (url : String) (nf old : Feed) :
    process_new_items send ns url nf old [] = ⟨nf, old, [], [], false⟩ := rfl

theorem pni_cons_no_send (send : SenderFn) (url : String) (nf old : Feed)
    (p : String × FeedItem) (rest : List (String × FeedItem)) :
    process_new_items send true url nf old (p :: rest) =
      let nf2 : Feed := ⟨nf.title, aerase nf.items p.1⟩
      let out := process_new_items send true url nf2
        ⟨old.title, ainsert old.items p.1 p.2⟩ rest
      ⟨out.new_feed, out.old_feed, out.trace,
        LogEvent.sendItem false url p.2.title :: out.log, out.aborted⟩ := by
  simp [process_new_items]

theorem pni_cons_err (send : SenderFn) (url : String) (nf old : Feed)
    (p : String × FeedItem) (rest : List (String × FeedItem)) (e : String)
    (h : send url ⟨nf.title, aerase nf.items p.1⟩ p.1 p.2 = .error e) :
    process_new_items send false url nf old (p :: rest) =
      ⟨⟨nf.title, aerase nf.items p.1⟩, old,
        [⟨url, ⟨nf.title, aerase nf.items p.1⟩, p.1, p.2, .error e⟩],
        [LogEvent.sendItem true url p.2.title, LogEvent.sendError p.1 e],
        true⟩ := by
  simp [process_new_items, h]

theorem pni_cons_ok (send : SenderFn) (url : String) (nf old : Feed)
    (p : String × FeedItem) (rest : List (String × FeedItem))
    (h : send url ⟨nf.title, aerase nf.items p.1⟩ p.1 p.2 = .ok ()) :
    process_new_items send false url nf old (p :: rest) =
      let nf2 : Feed := ⟨nf.title, aerase nf.items p.1⟩
      let out := process_new_items send false url nf2
        ⟨old.title, ainsert old.items p.1 p.2⟩ rest
      ⟨out.new_feed, out.old_feed,
        ⟨url, nf2, p.1, p.2, .ok ()⟩ :: out.trace,
        LogEvent.sendItem true url p.2.title :: out.log, out.aborted⟩ := by
  simp [process_new_items, h]

theorem rl_nil (send : SenderFn) (o : FetchAndSendOptions) (db : Database) :
    run_loop send o db [] = .finished db [] [] (.ok ()) := rfl

theorem rl_err (send : SenderFn) (o : FetchAndSendOptions) (db : Database)
    (e : String) (rest : List FetchResult) :
    run_loop send o db (.error e :: rest) =
      .finished db [] [.fetchError e] (.ok ()) := rfl

theorem rl_ok_none (send : SenderFn) (o : FetchAndSendOptions) (db : Database)
    (url : String) (nf : Feed) (rest : List FetchResult)
    (h : alookup db.feeds url = none) :
    run_loop send o db (.ok (url, nf) :: rest) = .panicked := by
  simp [run_loop, h]

theorem rl_ok_abort (send : SenderFn) (o : FetchAndSendOptions) (db : Database)
    (url : String) (nf old : Feed) (rest : List FetchResult)
    (h : alookup db.feeds url = some old)
    (ha : (process_feed send o.no_send url old nf).aborted = true) :
    run_loop send o db (.ok (url, nf) :: rest) =
      .finished ⟨ainsert db.feeds url (process_feed send o.no_send url old nf).old_feed⟩
        (process_feed send o.no_send url old nf).trace
        (process_feed send o.no_send url old nf).log (.ok ()) := by
  simp [run_loop, h, ha]

theorem rl_ok_cont (send : SenderFn) (o : FetchAndSendOptions) (db : Database)
    (url : String) (nf old : Feed) (rest : List FetchResult)
    (h : alookup db.feeds url = some old)
    (ha : (process_feed send o.no_send url old nf).aborted = false) :
    run_loop send o db (.ok (url, nf) :: rest) =
      match run_loop send o
        ⟨ainsert db.feeds url (process_feed send o.no_send url old nf).old_feed⟩ rest with
      | .panicked => .panicked
      | .finished db3 tr lg ret =>
        .finished db3 ((process_feed send o.no_send url old nf).trace ++ tr)
          ((process_feed send o.no_send url old nf).log ++ lg) ret := by
  simp [run_loop, h, ha]

theorem alookup_aerase {α : Type} (l : List (String × α)) (k k' : String) :
    alookup (aerase l k) k' = if k' = k then none else alookup l k' := by
  induction l with
  | nil => simp [aerase, alookup]
  | cons p rest ih =>
    by_cases hp : p.1 = k
    · have : ¬ (p.1 != k) = true := by simp [hp]
      simp only [aerase, List.filter_cons] at ih ⊢
      rw [if_neg this]
      by_cases hk : k' = k
      · simpa [hk] using ih
      · have hpk : ¬ p.1 = k' := fun e => hk (e.symm.trans hp)
        simpa [alookup, hpk, hk] using ih
    · have : (p.1 != k) = true := by simp [hp]
      simp only [aerase, List.filter_cons] at ih ⊢
      rw [if_pos this]
      by_cases hpk : p.1 = k'
      · have hk : ¬ k' = k := fun e => hp (hpk.trans e)
        simp [alookup, hpk, hk]
      · simpa [alookup, hpk] using ih

/-! ### Properties of the per-item loop (`no_send = false`) -/

theorem pni_membership (send : SenderFn) (url : String) :
    ∀ (pairs : List (String × FeedItem)) (nf old : Feed) (i : String),
      acontains (process_new_items send false url nf old pairs).old_feed.items i =
        (acontains old.items i ||
          (process_new_items send false url nf old pairs).trace.any
            (fun a => decide (a.item_id = i) && a.succeeded)) := by
  intro pairs
  induction pairs with
  | nil => intro nf old i; simp [pni_nil]
  | cons p rest ih =>
    intro nf old i
    cases h : send url ⟨nf.title, aerase nf.items p.1⟩ p.1 p.2 with
    | error e =>
      rw [pni_cons_err send url nf old p rest e h]
      simp [SendAttempt.succeeded]
    | ok u =>
      cases u
      rw [pni_cons_ok send url nf old p rest h]
      simp only [List.any_cons, ih, acontains_ainsert, SendAttempt.succeeded]
      by_cases hi : i = p.1
      · simp [hi]
      · simp [hi, Ne.symm hi]

theorem pni_trace_facts (send : SenderFn) (url : String) :
    ∀ (pairs : List (String × FeedItem)) (nf old : Feed),
      (∀ p ∈ pairs, acontains old.items p.1 = false) →
      (pairs.map (fun p => p.1)).Nodup →
      ∀ a ∈ (process_new_items send false url nf old pairs).trace,
        a.feed_url = url ∧ acontains old.items a.item_id = false := by
  intro pairs
  induction pairs with
  | nil =>
    intro nf old _ _ a ha
    simp [pni_nil] at ha
  | cons p rest ih =>
    intro nf old hnew hnd a ha
    have hp : acontains old.items p.1 = false := hnew p (by simp)
    have hndr : (rest.map (fun p => p.1)).Nodup := (List.nodup_cons.mp hnd).2
    have hpr : p.1 ∉ rest.map (fun q => q.1) := (List.nodup_cons.mp hnd).1
    cases h : send url ⟨nf.title, aerase nf.items p.1⟩ p.1 p.2 with
    | error e =>
      rw [pni_cons_err send url nf old p rest e h] at ha
      simp at ha
      subst ha
      exact ⟨rfl, hp⟩
    | ok u =>
      cases u
      rw [pni_cons_ok send url nf old p rest h] at ha
      simp only [List.mem_cons] at ha
      cases ha with
      | inl ha =>
        subst ha
        exact ⟨rfl, hp⟩
      | inr ha =>
        have hnew2 : ∀ q ∈ rest, acontains (ainsert old.items p.1 p.2) q.1 = false := by
          intro q hq
          rw [acontains_ainsert]
          have h1 : acontains old.items q.1 = false := hnew q (by simp [hq])
          have h2 : ¬ q.1 = p.1 := by
            intro he
            exact hpr (he ▸ List.mem_map_of_mem (fun r => r.1) hq)
          simp [h1, h2]
        have ih2 := ih ⟨nf.title, aerase nf.items p.1⟩
          ⟨old.title, ainsert old.items p.1 p.2⟩ hnew2 hndr a ha
        refine ⟨ih2.1, ?_⟩
        have h3 := ih2.2
        rw [show (⟨old.title, ainsert old.items p.1 p.2⟩ : Feed).items =
          ainsert old.items p.1 p.2 from rfl, acontains_ainsert] at h3
        simp only [Bool.or_eq_false_iff] at h3
        exact h3.2

theorem pni_trace_ids_sublist (send : SenderFn) (url : String) :
    ∀ (pairs : List (String × FeedItem)) (nf old : Feed),
      List.Sublist
        ((process_new_items send false url nf old pairs).trace.map (fun a => a.item_id))
        (pairs.map (fun p => p.1)) := by
  intro pairs
  induction pairs with
  | nil => intro nf old; simp [pni_nil]
  | cons p rest ih =>
    intro nf old
    cases h : send url ⟨nf.title, aerase nf.items p.1⟩ p.1 p.2 with
    | error e =>
      rw [pni_cons_err send url nf old p rest e h]
      simp only [List.map_cons]
      exact (List.nil_sublist _).cons₂ p.1
    | ok u =>
      cases u
      rw [pni_cons_ok send url nf old p rest h]
      simp only [List.map_cons]
      exact (ih _ _).cons₂ p.1

theorem pni_err_structure (send : SenderFn) (url : String) :
    ∀ (pairs : List (String × FeedItem)) (nf old : Feed),
      ((process_new_items send false url nf old pairs).aborted = false →
        ∀ a ∈ (process_new_items send false url nf old pairs).trace,
          a.succeeded = true) ∧
      ((process_new_items send false url nf old pairs).aborted = true →
        ∃ t0 aL, (process_new_items send false url nf old pairs).trace = t0 ++ [aL] ∧
          (∀ a ∈ t0, a.succeeded = true) ∧ aL.succeeded = false) := by
  intro pairs
  induction pairs with
  | nil => intro nf old; constructor
           · intro _ a ha; simp [pni_nil] at ha
           · intro hab; simp [pni_nil] at hab
  | cons p rest ih =>
    intro nf old
    cases h : send url ⟨nf.title, aerase nf.items p.1⟩ p.1 p.2 with
    | error e =>
      rw [pni_cons_err send url nf old p rest e h]
      constructor
      · intro hab; simp at hab
      · intro _
        exact ⟨[], _, rfl, by simp, by simp [SendAttempt.succeeded]⟩
    | ok u =>
      cases u
      rw [pni_cons_ok send url nf old p rest h]
      have ih2 := ih ⟨nf.title, aerase nf.items p.1⟩ ⟨old.title, ainsert old.items p.1 p.2⟩
      constructor
      · intro hab a ha
        simp only [List.mem_cons] at ha
        cases ha with
        | inl ha => subst ha; simp [SendAttempt.succeeded]
        | inr ha => exact ih2.1 hab a ha
      · intro hab
        obtain ⟨t0, aL, heq, hok, herr⟩ := ih2.2 hab
        refine ⟨⟨url, ⟨nf.title, aerase nf.items p.1⟩, p.1, p.2, .ok ()⟩ :: t0, aL, ?_, ?_, herr⟩
        · simp [heq]
        · intro a ha
          simp only [List.mem_cons] at ha
          cases ha with
          | inl ha => subst ha; simp [SendAttempt.succeeded]
          | inr ha => exact hok a ha

theorem pni_preserves (send : SenderFn) (url : String) :
    ∀ (pairs : List (String × FeedItem)) (nf old : Feed),
      (∀ p ∈ pairs, acontains old.items p.1 = false) →
      (pairs.map (fun p => p.1)).Nodup →
      ∀ i, acontains old.items i = true →
        alookup (process_new_items send false url nf old pairs).old_feed.items i =
          alookup old.items i := by
  intro pairs
  induction pairs with
  | nil => intro nf old _ _ i _; simp [pni_nil]
  | cons p rest ih =>
    intro nf old hnew hnd i hi
    have hp : acontains old.items p.1 = false := hnew p (by simp)
    have hndr : (rest.map (fun p => p.1)).Nodup := (List.nodup_cons.mp hnd).2
    have hpr : p.1 ∉ rest.map (fun q => q.1) := (List.nodup_cons.mp hnd).1
    have hip : ¬ i = p.1 := by
      intro he
      rw [he] at hi
      rw [hi] at hp
      exact Bool.true_eq_false.mp hp
    cases h : send url ⟨nf.title, aerase nf.items p.1⟩ p.1 p.2 with
    | error e =>
      rw [pni_cons_err send url nf old p rest e h]
    | ok u =>
      cases u
      rw [pni_cons_ok send url nf old p rest h]
      have hnew2 : ∀ q ∈ rest, acontains (ainsert old.items p.1 p.2) q.1 = false := by
        intro q hq
        rw [acontains_ainsert]
        have h1 : acontains old.items q.1 = false := hnew q (by simp [hq])
        have h2 : ¬ q.1 = p.1 := by
          intro he
          exact hpr (he ▸ List.mem_map_of_mem (fun r => r.1) hq)
        simp [h1, h2]
      have hi2 : acontains (ainsert old.items p.1 p.2) i = true := by
        rw [acontains_ainsert]
        simp [hi]
      have ih2 := ih ⟨nf.title, aerase nf.items p.1⟩
        ⟨old.title, ainsert old.items p.1 p.2⟩ hnew2 hndr i hi2
      rw [show (⟨old.title, ainsert old.items p.1 p.2⟩ : Feed).items =
        ainsert old.items p.1 p.2 from rfl] at ih2
      rw [ih2, alookup_ainsert, if_neg hip]

theorem pni_title (send : SenderFn) (ns : Bool) (url : String) :
    ∀ (pairs : List (String × FeedItem)) (nf old : Feed),
      (process_new_items send ns url nf old pairs).old_feed.title = old.title := by
  intro pairs
  induction pairs with
  | nil => intro nf old; simp [pni_nil]
  | cons p rest ih =>
    intro nf old
    cases ns with
    | true =>
      rw [pni_cons_no_send send url nf old p rest]
      exact ih _ _
    | false =>
      cases h : send url ⟨nf.title, aerase nf.items p.1⟩ p.1 p.2 with
      | error e => rw [pni_cons_err send url nf old p rest e h]
      | ok u =>
        cases u
        rw [pni_cons_ok send url nf old p rest h]
        exact ih _ _

theorem pni_keys_nodup (send : SenderFn) (url : String) :
    ∀ (pairs : List (String × FeedItem)) (nf old : Feed),
      (∀ p ∈ pairs, acontains old.items p.1 = false) →
      (pairs.map (fun p => p.1)).Nodup →
      (old.items.map (fun p => p.1)).Nodup →
      ((process_new_items send false url nf old pairs).old_feed.items.map
        (fun p => p.1)).Nodup := by
  intro pairs
  induction pairs with
  | nil => intro nf old _ _ hw; simpa [pni_nil] using hw
  | cons p rest ih =>
    intro nf old hnew hnd hw
    have hp : acontains old.items p.1 = false := hnew p (by simp)
    have hndr : (rest.map (fun p => p.1)).Nodup := (List.nodup_cons.mp hnd).2
    have hpr : p.1 ∉ rest.map (fun q => q.1) := (List.nodup_cons.mp hnd).1
    cases h : send url ⟨nf.title, aerase nf.items p.1⟩ p.1 p.2 with
    | error e =>
      rw [pni_cons_err send url nf old p rest e h]
      exact hw
    | ok u =>
      cases u
      rw [pni_cons_ok send url nf old p rest h]
      have hnew2 : ∀ q ∈ rest, acontains (ainsert old.items p.1 p.2) q.1 = false := by
        intro q hq
        rw [acontains_ainsert]
        have h1 : acontains old.items q.1 = false := hnew q (by simp [hq])
        have h2 : ¬ q.1 = p.1 := by
          intro he
          exact hpr (he ▸ List.mem_map_of_mem (fun r => r.1) hq)
        simp [h1, h2]
      have hw2 : ((ainsert old.items p.1 p.2).map (fun q => q.1)).Nodup := by
        rw [keys_ainsert_new old.items p.1 p.2 hp]
        rw [List.nodup_append]
        refine ⟨hw, List.nodup_singleton p.1, ?_⟩
        intro x hx hx1
        simp only [List.mem_singleton] at hx1
        subst hx1
        have hcx : acontains old.items p.1 = true := (acontains_iff_mem_keys _ _).mpr hx
        rw [hcx] at hp
        exact Bool.true_eq_false.mp hp
      exact ih ⟨nf.title, aerase nf.items p.1⟩
        ⟨old.title, ainsert old.items p.1 p.2⟩ hnew2 hndr hw2

theorem pni_no_send_eq (send : SenderFn) (url : String) :
    ∀ (pairs : List (String × FeedItem)) (nf old : Feed),
      (process_new_items send true url nf old pairs).old_feed =
        (process_new_items always_ok_sender false url nf old pairs).old_feed ∧
      (process_new_items send true url nf old pairs).trace = [] ∧
      (process_new_items send true url nf old pairs).aborted = false ∧
      (process_new_items always_ok_sender false url nf old pairs).aborted = false := by
  intro pairs
  induction pairs with
  | nil => intro nf old; simp [pni_nil]
  | cons p rest ih =>
    intro nf old
    rw [pni_cons_no_send send url nf old p rest,
      pni_cons_ok always_ok_sender url nf old p rest rfl]
    exact ih _ _

/-! ### Properties of one outer-loop iteration (`process_feed`) -/

theorem process_feed_eq (send : SenderFn) (ns : Bool) (url : String)
    (old nf : Feed) :
    process_feed send ns url old nf =
      process_new_items send ns url nf
        (if old.title ≠ nf.title ∧ nf.title.isSome then ⟨nf.title, old.items⟩ else old)
        (nf.items.filter (fun p => !(acontains old.items p.1))) := rfl

theorem pf_base_items (old nf : Feed) :
    (if old.title ≠ nf.title ∧ nf.title.isSome then (⟨nf.title, old.items⟩ : Feed)
      else old).items = old.items := by
  split <;> rfl

theorem pf_newpairs_new (old nf : Feed) :
    ∀ p ∈ nf.items.filter (fun p => !(acontains old.items p.1)),
      acontains old.items p.1 = false := by
  intro p hp
  have h := List.of_mem_filter hp
  simpa using h

theorem pf_newpairs_nodup (old nf : Feed) (h : nf.WF) :
    ((nf.items.filter (fun p => !(acontains old.items p.1))).map
      (fun p => p.1)).Nodup :=
  List.Nodup.sublist (List.Sublist.map _ (List.filter_sublist _)) h

theorem pf_membership (send : SenderFn) (url : String) (old nf : Feed)
    (i : String) :
    acontains (process_feed send false url old nf).old_feed.items i =
      (acontains old.items i ||
        (process_feed send false url old nf).trace.any
          (fun a => decide (a.item_id = i) && a.succeeded)) := by
  rw [process_feed_eq, pni_membership]
  rw [show (if old.title ≠ nf.title ∧ nf.title.isSome then (⟨nf.title, old.items⟩ : Feed)
    else old).items = old.items from pf_base_items old nf]

theorem pf_trace_facts (send : SenderFn) (url : String) (old nf : Feed)
    (hwf : nf.WF) :
    ∀ a ∈ (process_feed send false url old nf).trace,
      a.feed_url = url ∧ acontains old.items a.item_id = false := by
  rw [process_feed_eq]
  have h := pni_trace_facts send url
    (nf.items.filter (fun p => !(acontains old.items p.1))) nf
    (if old.title ≠ nf.title ∧ nf.title.isSome then ⟨nf.title, old.items⟩ else old)
    (by rw [pf_base_items]; exact pf_newpairs_new old nf)
    (pf_newpairs_nodup old nf hwf)
  intro a ha
  have h2 := h a ha
  rwa [pf_base_items] at h2

theorem pf_ids_nodup (send : SenderFn) (url : String) (old nf : Feed)
    (hwf : nf.WF) :
    ((process_feed send false url old nf).trace.map (fun a => a.item_id)).Nodup := by
  rw [process_feed_eq]
  exact List.Nodup.sublist (pni_trace_ids_sublist send url _ _ _)
    (pf_newpairs_nodup old nf hwf)

theorem pf_err_structure (send : SenderFn) (url : String) (old nf : Feed) :
    ((process_feed send false url old nf).aborted = false →
      ∀ a ∈ (process_feed send false url old nf).trace, a.succeeded = true) ∧
    ((process_feed send false url old nf).aborted = true →
      ∃ t0 aL, (process_feed send false url old nf).trace = t0 ++ [aL] ∧
        (∀ a ∈ t0, a.succeeded = true) ∧ aL.succeeded = false) := by
  rw [process_feed_eq]
  exact pni_err_structure send url _ _ _

theorem pf_preserves (send : SenderFn) (url : String) (old nf : Feed)
    (hwf : nf.WF) :
    ∀ i, acontains old.items i = true →
      alookup (process_feed send false url old nf).old_feed.items i =
        alookup old.items i := by
  rw [process_feed_eq]
  intro i hi
  have h := pni_preserves send url
    (nf.items.filter (fun p => !(acontains old.items p.1))) nf
    (if old.title ≠ nf.title ∧ nf.title.isSome then ⟨nf.title, old.items⟩ else old)
    (by rw [pf_base_items]; exact pf_newpairs_new old nf)
    (pf_newpairs_nodup old nf hwf) i (by rwa [pf_base_items])
  rwa [pf_base_items] at h

theorem pf_keys_nodup (send : SenderFn) (url : String) (old nf : Feed)
    (hwf : nf.WF) (hold : Feed.WF old) :
    ((process_feed send false url old nf).old_feed.items.map (fun p => p.1)).Nodup := by
  rw [process_feed_eq]
  apply pni_keys_nodup send url _ nf _
    (by rw [pf_base_items]; exact pf_newpairs_new old nf)
    (pf_newpairs_nodup old nf hwf)
  rw [pf_base_items]
  exact hold

theorem pf_no_send (send : SenderFn) (url : String) (old nf : Feed) :
    (process_feed send true url old nf).old_feed =
      (process_feed always_ok_sender false url old nf).old_feed ∧
    (process_feed send true url old nf).trace = [] ∧
    (process_feed send true url old nf).aborted = false ∧
    (process_feed always_ok_sender false url old nf).aborted = false := by
  rw [process_feed_eq, process_feed_eq]
  exact pni_no_send_eq send url _ _ _

theorem pf_all_recorded (send : SenderFn) (ns : Bool) (url : String)
    (old nf : Feed) (hall : ∀ p ∈ nf.items, acontains old.items p.1 = true) :
    process_feed send ns url old nf =
      ⟨nf, if old.title ≠ nf.title ∧ nf.title.isSome then ⟨nf.title, old.items⟩ else old,
        [], [], false⟩ := by
  rw [process_feed_eq]
  have hfilter : nf.items.filter (fun p => !(acontains old.items p.1)) = [] := by
    apply List.filter_eq_nil_iff.mpr
    intro p hp
    simp [hall p hp]
  rw [hfilter, pni_nil]

/-! ### Session-level lemmas on `run_loop` -/

theorem any_congr_mem {α : Type} (l : List α) (f g : α → Bool)
    (h : ∀ a ∈ l, f a = g a) : l.any f = l.any g := by
  induction l with
  | nil => rfl
  | cons a rest ih =>
    simp only [List.any_cons]
    rw [h a (by simp), ih (fun b hb => h b (by simp [hb]))]

theorem rl_ret_ok (send : SenderFn) (o : FetchAndSendOptions) :
    ∀ (rs : List FetchResult) (db db2 : Database) (tr : List SendAttempt)
      (lg : List LogEvent) (ret : Except String Unit),
      run_loop send o db rs = .finished db2 tr lg ret → ret = .ok () := by
  intro rs
  induction rs with
  | nil =>
    intro db db2 tr lg ret h
    rw [rl_nil] at h
    cases h
    rfl
  | cons r rest ih =>
    intro db db2 tr lg ret h
    cases r with
    | error e =>
      rw [rl_err] at h
      cases h
      rfl
    | ok pr =>
      obtain ⟨url, nf⟩ := pr
      cases hl : alookup db.feeds url with
      | none =>
        rw [rl_ok_none send o db url nf rest hl] at h
        cases h
      | some old =>
        cases hab : (process_feed send o.no_send url old nf).aborted with
        | true =>
          rw [rl_ok_abort send o db url nf old rest hl hab] at h
          cases h
          rfl
        | false =>
          rw [rl_ok_cont send o db url nf old rest hl hab] at h
          cases h2 : run_loop send o
            ⟨ainsert db.feeds url (process_feed send o.no_send url old nf).old_feed⟩
            rest with
          | panicked =>
            rw [h2] at h
            cases h
          | finished db3 tr3 lg3 ret3 =>
            rw [h2] at h
            cases h
            exact ih _ _ _ _ _ h2

/-- The database after storing one reconciled feed entry: membership of item
records, expressed through the step's sender trace. -/
theorem step_membership (send : SenderFn) (url : String) (db : Database)
    (old nf : Feed) (hl : alookup db.feeds url = some old) (hwf : nf.WF)
    (f i : String) :
    recordedB ⟨ainsert db.feeds url (process_feed send false url old nf).old_feed⟩ f i =
      (recordedB db f i ||
        (process_feed send false url old nf).trace.any
          (fun a => decide (a.feed_url = f) && decide (a.item_id = i) && a.succeeded)) := by
  by_cases hf : f = url
  · subst hf
    have hx : alookup (ainsert db.feeds f (process_feed send false f old nf).old_feed) f =
        some (process_feed send false f old nf).old_feed := by
      rw [alookup_ainsert]
      simp
    rw [recordedB_of_lookup ⟨ainsert db.feeds f (process_feed send false f old nf).old_feed⟩
      f i (process_feed send false f old nf).old_feed hx,
      recordedB_of_lookup db f i old hl, pf_membership]
    congr 1
    apply any_congr_mem
    intro a ha
    have hfa := (pf_trace_facts send f old nf hwf a ha).1
    simp [hfa]
  · have hl2 : alookup (ainsert db.feeds url (process_feed send false url old nf).old_feed) f =
        alookup db.feeds f := by
      rw [alookup_ainsert, if_neg hf]
    have hany : (process_feed send false url old nf).trace.any
        (fun a => decide (a.feed_url = f) && decide (a.item_id = i) && a.succeeded) = false := by
      rw [List.any_eq_false]
      intro a ha
      have hfa := (pf_trace_facts send url old nf hwf a ha).1
      have hne : ¬ url = f := fun e => hf e.symm
      simp [hfa, hne]
    rw [hany, Bool.or_false, recordedB_eq, recordedB_eq, hl2]

theorem rl_membership (send : SenderFn) (o : FetchAndSendOptions)
    (hns : o.no_send = false) :
    ∀ (rs : List FetchResult),
      (∀ url nf, Except.ok (url, nf) ∈ rs → nf.WF) →
      ∀ (db db2 : Database) (tr : List SendAttempt) (lg : List LogEvent)
        (ret : Except String Unit),
      run_loop send o db rs = .finished db2 tr lg ret →
      ∀ f i, recordedB db2 f i =
        (recordedB db f i ||
          tr.any (fun a => decide (a.feed_url = f) && decide (a.item_id = i) &&
            a.succeeded)) := by
  intro rs
  induction rs with
  | nil =>
    intro _ db db2 tr lg ret h f i
    rw [rl_nil] at h
    cases h
    simp
  | cons r rest ih =>
    intro hrwf db db2 tr lg ret h f i
    cases r with
    | error e =>
      rw [rl_err] at h
      cases h
      simp
    | ok pr =>
      obtain ⟨url, nf⟩ := pr
      have hwf : nf.WF := hrwf url nf (by simp)
      have hrwf2 : ∀ url2 nf2, Except.ok (url2, nf2) ∈ rest → nf2.WF :=
        fun url2 nf2 hm => hrwf url2 nf2 (by simp [hm])
      cases hl : alookup db.feeds url with
      | none =>
        rw [rl_ok_none send o db url nf rest hl] at h
        cases h
      | some old =>
        cases hab : (process_feed send o.no_send url old nf).aborted with
        | true =>
          rw [rl_ok_abort send o db url nf old rest hl hab] at h
          cases h
          simp only [hns]
          exact step_membership send url db old nf hl hwf f i
        | false =>
          rw [rl_ok_cont send o db url nf old rest hl hab] at h
          cases h2 : run_loop send o
            ⟨ainsert db.feeds url (process_feed send o.no_send url old nf).old_feed⟩
            rest with
          | panicked =>
            rw [h2] at h
            cases h
          | finished db3 tr3 lg3 ret3 =>
            rw [h2] at h
            cases h
            have hih := ih hrwf2 _ _ _ _ _ h2 f i
            have hstep := step_membership send url db old nf hl hwf f i
            simp only [hns] at hih
            simp only [hns]
            rw [List.any_append, hih, hstep, Bool.or_assoc]

theorem item_lookup_of_lookup (db : Database) (f i : String) (fd : Feed)
    (h : alookup db.feeds f = some fd) :
    item_lookup db f i = alookup fd.items i := by
  unfold item_lookup
  rw [h]

theorem item_lookup_of_none (db : Database) (f i : String)
    (h : alookup db.feeds f = none) : item_lookup db f i = none := by
  unfold item_lookup
  rw [h]

theorem rl_freshness (send : SenderFn) (o : FetchAndSendOptions)
    (hns : o.no_send = false) :
    ∀ (rs : List FetchResult),
      (∀ url nf, Except.ok (url, nf) ∈ rs → nf.WF) →
      ∀ (db db2 : Database) (tr : List SendAttempt) (lg : List LogEvent)
        (ret : Except String Unit),
      run_loop send o db rs = .finished db2 tr lg ret →
      ∀ a ∈ tr, recordedB db a.feed_url a.item_id = false := by
  intro rs
  induction rs with
  | nil =>
    intro _ db db2 tr lg ret h a ha
    rw [rl_nil] at h
    cases h
    simp at ha
  | cons r rest ih =>
    intro hrwf db db2 tr lg ret h a ha
    cases r with
    | error e =>
      rw [rl_err] at h
      cases h
      simp at ha
    | ok pr =>
      obtain ⟨url, nf⟩ := pr
      have hwf : nf.WF := hrwf url nf (by simp)
      have hrwf2 : ∀ url2 nf2, Except.ok (url2, nf2) ∈ rest → nf2.WF :=
        fun url2 nf2 hm => hrwf url2 nf2 (by simp [hm])
      cases hl : alookup db.feeds url with
      | none =>
        rw [rl_ok_none send o db url nf rest hl] at h
        cases h
      | some old =>
        cases hab : (process_feed send o.no_send url old nf).aborted with
        | true =>
          rw [rl_ok_abort send o db url nf old rest hl hab] at h
          cases h
          simp only [hns] at ha
          have hfacts := pf_trace_facts send url old nf hwf a ha
          rw [hfacts.1, recordedB_of_lookup db url a.item_id old hl]
          exact hfacts.2
        | false =>
          rw [rl_ok_cont send o db url nf old rest hl hab] at h
          cases h2 : run_loop send o
            ⟨ainsert db.feeds url (process_feed send o.no_send url old nf).old_feed⟩
            rest with
          | panicked =>
            rw [h2] at h
            cases h
          | finished db3 tr3 lg3 ret3 =>
            rw [h2] at h
            cases h
            rw [List.mem_append] at ha
            cases ha with
            | inl ha =>
              simp only [hns] at ha
              have hfacts := pf_trace_facts send url old nf hwf a ha
              rw [hfacts.1, recordedB_of_lookup db url a.item_id old hl]
              exact hfacts.2
            | inr ha =>
              have hmid := ih hrwf2 _ _ _ _ _ h2 a ha
              simp only [hns] at hmid
              have hstep := step_membership send url db old nf hl hwf a.feed_url a.item_id
              rw [hmid] at hstep
              exact (Bool.or_eq_false_iff.mp hstep.symm).1

theorem rl_preserves (send : SenderFn) (o : FetchAndSendOptions)
    (hns : o.no_send = false) :
    ∀ (rs : List FetchResult),
      (∀ url nf, Except.ok (url, nf) ∈ rs → nf.WF) →
      ∀ (db db2 : Database) (tr : List SendAttempt) (lg : List LogEvent)
        (ret : Except String Unit),
      run_loop send o db rs = .finished db2 tr lg ret →
      ∀ f i, recordedB db f i = true → item_lookup db2 f i = item_lookup db f i := by
  intro rs
  induction rs with
  | nil =>
    intro _ db db2 tr lg ret h f i _
    rw [rl_nil] at h
    cases h
    rfl
  | cons r rest ih =>
    intro hrwf db db2 tr lg ret h f i hrec
    cases r with
    | error e =>
      rw [rl_err] at h
      cases h
      rfl
    | ok pr =>
      obtain ⟨url, nf⟩ := pr
      have hwf : nf.WF := hrwf url nf (by simp)
      have hrwf2 : ∀ url2 nf2, Except.ok (url2, nf2) ∈ rest → nf2.WF :=
        fun url2 nf2 hm => hrwf url2 nf2 (by simp [hm])
      cases hl : alookup db.feeds url with
      | none =>
        rw [rl_ok_none send o db url nf rest hl] at h
        cases h
      | some old =>
        have hstep_pres : item_lookup
            ⟨ainsert db.feeds url (process_feed send false url old nf).old_feed⟩ f i =
            item_lookup db f i := by
          by_cases hf : f = url
          · subst hf
            have hx : alookup (ainsert db.feeds f (process_feed send false f old nf).old_feed) f =
                some (process_feed send false f old nf).old_feed := by
              rw [alookup_ainsert]
              simp
            rw [item_lookup_of_lookup
              ⟨ainsert db.feeds f (process_feed send false f old nf).old_feed⟩ f i
              (process_feed send false f old nf).old_feed hx,
              item_lookup_of_lookup db f i old hl]
            exact pf_preserves send f old nf hwf i
              (by rw [recordedB_of_lookup db f i old hl] at hrec; exact hrec)
          · have hl2 : alookup (ainsert db.feeds url (process_feed send false url old nf).old_feed) f =
                alookup db.feeds f := by
              rw [alookup_ainsert, if_neg hf]
            unfold item_lookup
            rw [hl2]
        have hstep_rec : recordedB
            ⟨ainsert db.feeds url (process_feed send false url old nf).old_feed⟩ f i = true := by
          rw [step_membership send url db old nf hl hwf f i, hrec]
          simp
        cases hab : (process_feed send o.no_send url old nf).aborted with
        | true =>
          rw [rl_ok_abort send o db url nf old rest hl hab] at h
          cases h
          simp only [hns]
          exact hstep_pres
        | false =>
          rw [rl_ok_cont send o db url nf old rest hl hab] at h
          cases h2 : run_loop send o
            ⟨ainsert db.feeds url (process_feed send o.no_send url old nf).old_feed⟩
            rest with
          | panicked =>
            rw [h2] at h
            cases h
          | finished db3 tr3 lg3 ret3 =>
            rw [h2] at h
            cases h
            rw [hns] at h2
            have hih := ih hrwf2 _ _ _ _ _ h2 f i hstep_rec
            rw [hih, hstep_pres]

theorem rl_all_recorded (send : SenderFn) (o : FetchAndSendOptions)
    (hns : o.no_send = false) :
    ∀ (rs : List FetchResult) (db db2 : Database) (tr : List SendAttempt)
      (lg : List LogEvent) (ret : Except String Unit),
      (∀ url nf, Except.ok (url, nf) ∈ rs → ∀ p ∈ nf.items,
        recordedB db url p.1 = true) →
      run_loop send o db rs = .finished db2 tr lg ret → tr = [] := by
  intro rs
  induction rs with
  | nil =>
    intro db db2 tr lg ret _ h
    rw [rl_nil] at h
    cases h
    rfl
  | cons r rest ih =>
    intro db db2 tr lg ret hall h
    cases r with
    | error e =>
      rw [rl_err] at h
      cases h
      rfl
    | ok pr =>
      obtain ⟨url, nf⟩ := pr
      cases hl : alookup db.feeds url with
      | none =>
        rw [rl_ok_none send o db url nf rest hl] at h
        cases h
      | some old =>
        have hold : ∀ p ∈ nf.items, acontains old.items p.1 = true := by
          intro p hp
          have hr := hall url nf (by simp) p hp
          rwa [recordedB_of_lookup db url p.1 old hl] at hr
        have hout := pf_all_recorded send o.no_send url old nf hold
        have hab : (process_feed send o.no_send url old nf).aborted = false := by
          rw [hout]
        rw [rl_ok_cont send o db url nf old rest hl hab] at h
        have hmid_rec : ∀ f i, recordedB
            ⟨ainsert db.feeds url (process_feed send o.no_send url old nf).old_feed⟩ f i =
            recordedB db f i := by
          intro f i
          by_cases hf : f = url
          · subst hf
            have hx : alookup (ainsert db.feeds f (process_feed send o.no_send f old nf).old_feed) f =
                some (process_feed send o.no_send f old nf).old_feed := by
              rw [alookup_ainsert]
              simp
            rw [recordedB_of_lookup
              ⟨ainsert db.feeds f (process_feed send o.no_send f old nf).old_feed⟩ f i
              (process_feed send o.no_send f old nf).old_feed hx,
              recordedB_of_lookup db f i old hl, hout]
            rw [show ((⟨nf, if old.title ≠ nf.title ∧ nf.title.isSome then ⟨nf.title, old.items⟩
              else old, [], [], false⟩ : ItemLoopOut)).old_feed =
              (if old.title ≠ nf.title ∧ nf.title.isSome then ⟨nf.title, old.items⟩ else old)
              from rfl, pf_base_items]
          · have hl2 : alookup (ainsert db.feeds url (process_feed send o.no_send url old nf).old_feed) f =
                alookup db.feeds f := by
              rw [alookup_ainsert, if_neg hf]
            rw [recordedB_eq, recordedB_eq, hl2]
        cases h2 : run_loop send o
          ⟨ainsert db.feeds url (process_feed send o.no_send url old nf).old_feed⟩
          rest with
        | panicked =>
          rw [h2] at h
          cases h
        | finished db3 tr3 lg3 ret3 =>
          rw [h2] at h
          cases h
          have hall2 : ∀ url2 nf2, Except.ok (url2, nf2) ∈ rest → ∀ p ∈ nf2.items,
              recordedB ⟨ainsert db.feeds url (process_feed send o.no_send url old nf).old_feed⟩
                url2 p.1 = true := by
            intro url2 nf2 hm p hp
            rw [hmid_rec]
            exact hall url2 nf2 (by simp [hm]) p hp
          have htr3 := ih _ _ _ _ _ hall2 h2
          rw [htr3, hout]
          rfl

theorem rl_err_last (send : SenderFn) (o : FetchAndSendOptions)
    (hns : o.no_send = false) :
    ∀ (rs : List FetchResult) (db db2 : Database) (tr : List SendAttempt)
      (lg : List LogEvent) (ret : Except String Unit),
      run_loop send o db rs = .finished db2 tr lg ret →
      ∀ a ∈ tr.dropLast, a.succeeded = true := by
  intro rs
  induction rs with
  | nil =>
    intro db db2 tr lg ret h a ha
    rw [rl_nil] at h
    cases h
    simp at ha
  | cons r rest ih =>
    intro db db2 tr lg ret h a ha
    cases r with
    | error e =>
      rw [rl_err] at h
      cases h
      simp at ha
    | ok pr =>
      obtain ⟨url, nf⟩ := pr
      cases hl : alookup db.feeds url with
      | none =>
        rw [rl_ok_none send o db url nf rest hl] at h
        cases h
      | some old =>
        cases hab : (process_feed send o.no_send url old nf).aborted with
        | true =>
          rw [rl_ok_abort send o db url nf old rest hl hab] at h
          cases h
          simp only [hns] at ha hab
          obtain ⟨t0, aL, heq, hok, _⟩ := (pf_err_structure send url old nf).2 hab
          rw [heq, List.dropLast_concat] at ha
          exact hok a ha
        | false =>
          rw [rl_ok_cont send o db url nf old rest hl hab] at h
          cases h2 : run_loop send o
            ⟨ainsert db.feeds url (process_feed send o.no_send url old nf).old_feed⟩
            rest with
          | panicked =>
            rw [h2] at h
            cases h
          | finished db3 tr3 lg3 ret3 =>
            rw [h2] at h
            cases h
            simp only [hns] at ha hab
            have hok1 := (pf_err_structure send url old nf).1 hab
            cases htr3 : tr3 with
            | nil =>
              rw [htr3, List.append_nil] at ha
              exact hok1 a ((List.dropLast_sublist _).subset ha)
            | cons b tl =>
              rw [htr3, List.dropLast_append_cons, List.mem_append] at ha
              cases ha with
              | inl ha => exact hok1 a ha
              | inr ha =>
                have := ih _ _ _ _ _ h2 a (by rw [htr3]; exact ha)
                exact this

theorem pf_pairs_nodup (send : SenderFn) (url : String) (old nf : Feed)
    (hwf : nf.WF) :
    ((process_feed send false url old nf).trace.map
      (fun a => (a.feed_url, a.item_id))).Nodup := by
  have hids := pf_ids_nodup send url old nf hwf
  have hmm : (process_feed send false url old nf).trace.map (fun a => a.item_id) =
      ((process_feed send false url old nf).trace.map
        (fun a => (a.feed_url, a.item_id))).map Prod.snd := by
    rw [List.map_map]
    rfl
  rw [hmm] at hids
  exact List.Nodup.of_map _ hids

theorem rl_pairs_nodup (send : SenderFn) (o : FetchAndSendOptions)
    (hns : o.no_send = false) :
    ∀ (rs : List FetchResult),
      (∀ url nf, Except.ok (url, nf) ∈ rs → nf.WF) →
      ∀ (db db2 : Database) (tr : List SendAttempt) (lg : List LogEvent)
        (ret : Except String Unit),
      run_loop send o db rs = .finished db2 tr lg ret →
      (tr.map (fun a => (a.feed_url, a.item_id))).Nodup := by
  intro rs
  induction rs with
  | nil =>
    intro _ db db2 tr lg ret h
    rw [rl_nil] at h
    cases h
    simp
  | cons r rest ih =>
    intro hrwf db db2 tr lg ret h
    cases r with
    | error e =>
      rw [rl_err] at h
      cases h
      simp
    | ok pr =>
      obtain ⟨url, nf⟩ := pr
      have hwf : nf.WF := hrwf url nf (by simp)
      have hrwf2 : ∀ url2 nf2, Except.ok (url2, nf2) ∈ rest → nf2.WF :=
        fun url2 nf2 hm => hrwf url2 nf2 (by simp [hm])
      cases hl : alookup db.feeds url with
      | none =>
        rw [rl_ok_none send o db url nf rest hl] at h
        cases h
      | some old =>
        cases hab : (process_feed send o.no_send url old nf).aborted with
        | true =>
          rw [rl_ok_abort send o db url nf old rest hl hab] at h
          cases h
          simp only [hns]
          exact pf_pairs_nodup send url old nf hwf
        | false =>
          rw [rl_ok_cont send o db url nf old rest hl hab] at h
          cases h2 : run_loop send o
            ⟨ainsert db.feeds url (process_feed send o.no_send url old nf).old_feed⟩
            rest with
          | panicked =>
            rw [h2] at h
            cases h
          | finished db3 tr3 lg3 ret3 =>
            rw [h2] at h
            cases h
            simp only [hns] at hab
            rw [List.map_append, List.nodup_append]
            refine ⟨by simp only [hns]; exact pf_pairs_nodup send url old nf hwf,
              ih hrwf2 _ _ _ _ _ h2, ?_⟩
            intro x hx1 hx2
            simp only [hns] at hx1
            obtain ⟨a, ha, hax⟩ := List.mem_map.mp hx1
            obtain ⟨b, hb, hbx⟩ := List.mem_map.mp hx2
            have hpair : (a.feed_url, a.item_id) = (b.feed_url, b.item_id) := by
              rw [hax, hbx]
            have hfeq : a.feed_url = b.feed_url := congrArg Prod.fst hpair
            have hieq : a.item_id = b.item_id := congrArg Prod.snd hpair
            have hsucc : a.succeeded = true :=
              (pf_err_structure send url old nf).1 hab a ha
            have hrecMid : recordedB
                ⟨ainsert db.feeds url (process_feed send false url old nf).old_feed⟩
                a.feed_url a.item_id = true := by
              rw [step_membership send url db old nf hl hwf a.feed_url a.item_id]
              have hany : (process_feed send false url old nf).trace.any
                  (fun c => decide (c.feed_url = a.feed_url) &&
                    decide (c.item_id = a.item_id) && c.succeeded) = true :=
                List.any_eq_true.mpr ⟨a, ha, by simp [hsucc]⟩
              simp [hany]
            have hfresh := rl_freshness send o hns rest hrwf2 _ _ _ _ _ h2 b hb
            rw [← hfeq, ← hieq] at hfresh
            simp only [hns] at hfresh
            rw [hfresh] at hrecMid
            exact Bool.false_ne_true hrecMid

theorem final_db_prepend (x : SessionResult) (A : List SendAttempt)
    (B : List LogEvent) :
    (match x with
      | .panicked => SessionResult.panicked
      | .finished d t l r => SessionResult.finished d (A ++ t) (B ++ l) r).final_db =
      x.final_db := by
  cases x <;> rfl

theorem rl_no_send_trace (send : SenderFn) (o : FetchAndSendOptions)
    (hns : o.no_send = true) :
    ∀ (rs : List FetchResult) (db db2 : Database) (tr : List SendAttempt)
      (lg : List LogEvent) (ret : Except String Unit),
      run_loop send o db rs = .finished db2 tr lg ret → tr = [] := by
  intro rs
  induction rs with
  | nil =>
    intro db db2 tr lg ret h
    rw [rl_nil] at h
    cases h
    rfl
  | cons r rest ih =>
    intro db db2 tr lg ret h
    cases r with
    | error e =>
      rw [rl_err] at h
      cases h
      rfl
    | ok pr =>
      obtain ⟨url, nf⟩ := pr
      cases hl : alookup db.feeds url with
      | none =>
        rw [rl_ok_none send o db url nf rest hl] at h
        cases h
      | some old =>
        have hab : (process_feed send o.no_send url old nf).aborted = false := by
          rw [hns]
          exact (pf_no_send send url old nf).2.2.1
        rw [rl_ok_cont send o db url nf old rest hl hab] at h
        cases h2 : run_loop send o
          ⟨ainsert db.feeds url (process_feed send o.no_send url old nf).old_feed⟩
          rest with
        | panicked =>
          rw [h2] at h
          cases h
        | finished db3 tr3 lg3 ret3 =>
          rw [h2] at h
          cases h
          have htr3 := ih _ _ _ _ _ h2
          rw [htr3, List.append_nil, hns]
          exact (pf_no_send send url old nf).2.1

theorem rl_no_send_db (send : SenderFn) (fu : Option (List String)) :
    ∀ (rs : List FetchResult) (db : Database),
      (run_loop send ⟨fu, true⟩ db rs).final_db =
        (run_loop always_ok_sender ⟨fu, false⟩ db rs).final_db := by
  intro rs
  induction rs with
  | nil => intro db; rfl
  | cons r rest ih =>
    intro db
    cases r with
    | error e => rfl
    | ok pr =>
      obtain ⟨url, nf⟩ := pr
      cases hl : alookup db.feeds url with
      | none =>
        rw [rl_ok_none send ⟨fu, true⟩ db url nf rest hl,
          rl_ok_none always_ok_sender ⟨fu, false⟩ db url nf rest hl]
      | some old =>
        have hno := pf_no_send send url old nf
        have hab_t : (process_feed send (⟨fu, true⟩ : FetchAndSendOptions).no_send
            url old nf).aborted = false := hno.2.2.1
        have hab_f : (process_feed always_ok_sender
            (⟨fu, false⟩ : FetchAndSendOptions).no_send url old nf).aborted = false :=
          hno.2.2.2
        rw [rl_ok_cont send ⟨fu, true⟩ db url nf old rest hl hab_t,
          rl_ok_cont always_ok_sender ⟨fu, false⟩ db url nf old rest hl hab_f,
          final_db_prepend, final_db_prepend]
        have hdb : (⟨ainsert db.feeds url (process_feed send
            (⟨fu, true⟩ : FetchAndSendOptions).no_send url old nf).old_feed⟩ : Database) =
            ⟨ainsert db.feeds url (process_feed always_ok_sender
              (⟨fu, false⟩ : FetchAndSendOptions).no_send url old nf).old_feed⟩ := by
          rw [show (⟨fu, true⟩ : FetchAndSendOptions).no_send = true from rfl,
            show (⟨fu, false⟩ : FetchAndSendOptions).no_send = false from rfl, hno.1]
        rw [hdb]
        exact ih _

theorem rl_stops_on_error (send : SenderFn) (o : FetchAndSendOptions) :
    ∀ (xs : List FetchResult) (db : Database) (e : String)
      (rest : List FetchResult),
      run_loop send o db (xs ++ .error e :: rest) =
        run_loop send o db (xs ++ [.error e]) := by
  intro xs
  induction xs with
  | nil =>
    intro db e rest
    rw [List.nil_append, List.nil_append, rl_err, rl_err]
  | cons r tail ih =>
    intro db e rest
    cases r with
    | error e2 =>
      rw [List.cons_append, List.cons_append, rl_err, rl_err]
    | ok pr =>
      obtain ⟨url, nf⟩ := pr
      cases hl : alookup db.feeds url with
      | none =>
        rw [List.cons_append, List.cons_append,
          rl_ok_none send o db url nf _ hl, rl_ok_none send o db url nf _ hl]
      | some old =>
        cases hab : (process_feed send o.no_send url old nf).aborted with
        | true =>
          rw [List.cons_append, List.cons_append,
            rl_ok_abort send o db url nf old _ hl hab,
            rl_ok_abort send o db url nf old _ hl hab]
        | false =>
          rw [List.cons_append, List.cons_append,
            rl_ok_cont send o db url nf old _ hl hab,
            rl_ok_cont send o db url nf old _ hl hab, ih]

/-! ### Shared helpers for witness theorems -/

theorem wf_singleton (url0 : String) (nf0 : Feed) (hw : nf0.WF) :
    ∀ url nf, Except.ok (url, nf) ∈ ([Except.ok (url0, nf0)] : List FetchResult) →
      nf.WF := by
  intro url nf hm
  simp only [List.mem_singleton] at hm
  have h := Except.ok.inj hm
  have h2 : nf = nf0 := congrArg Prod.snd h
  rw [h2]
  exact hw

/-! ### The claims -/

/-- C10: whenever `fetch_and_send_feeds` returns, its returned
`Result<(), Error>` is `Ok(())`: fetch-stream errors and sender failures
terminate processing early but are only logged, and no error value is ever
propagated to the caller.  (The only non-returning path is the
`get_mut(..).unwrap()` panic on a fetched URL absent from the database,
modelled by `SessionResult.panicked`.) -/
theorem claim_C10 (send : SenderFn) (o : FetchAndSendOptions) (db db2 : Database)
    (rs : List FetchResult) (tr : List SendAttempt) (lg : List LogEvent)
    (ret : Except String Unit)
    (hrun : db.fetch_and_send_feeds send o rs = .finished db2 tr lg ret) :
    ret = .ok () :=
  rl_ret_ok send o rs db db2 tr lg ret hrun

theorem claim_C10_witness :
    Database.fetch_and_send_feeds ex_db0 always_ok_sender ex_opts ex_results =
      .finished ex_db2 [⟨"a", ⟨some "T", []⟩, "i", ex_item 1, .ok ()⟩]
        [.sendItem true "a" none] (.ok ()) ∧
    (Except.ok () : Except String Unit) = .ok () :=
  ⟨by decide, claim_C10 always_ok_sender ex_opts ex_db0 ex_db2 ex_results
    [⟨"a", ⟨some "T", []⟩, "i", ex_item 1, .ok ()⟩]
    [.sendItem true "a" none] (.ok ()) (by decide)⟩

/-- C8: `remove_feed(u)` on a database containing `u` succeeds, removes
`u`'s feed record and every item record belonging to `u` (item records
live inside the feed's record), and leaves every other feed's record -
hence its item records - unchanged; on a database not containing `u` it
fails with the feed-not-found error and returns no new state. -/
theorem claim_C8 (db : Database) (u : String) :
    (acontains db.feeds u = true →
      ∃ db2, db.remove_feed u = .ok db2 ∧
        alookup db2.feeds u = none ∧
        (∀ i, recordedB db2 u i = false) ∧
        (∀ v, v ≠ u → alookup db2.feeds v = alookup db.feeds v)) ∧
    (acontains db.feeds u = false →
      db.remove_feed u = .error
        ("Feed does not exist in database (feed URL: " ++ u ++ ")")) := by
  constructor
  · intro hc
    obtain ⟨fd, hfd⟩ := (acontains_true_iff _ _).mp hc
    have hfeeds : (⟨aerase db.feeds u⟩ : Database).feeds = aerase db.feeds u := rfl
    have hnone : alookup (⟨aerase db.feeds u⟩ : Database).feeds u = none := by
      rw [hfeeds, alookup_aerase, if_pos rfl]
    refine ⟨⟨aerase db.feeds u⟩, ?_, hnone, ?_, ?_⟩
    · unfold Database.remove_feed
      rw [hfd]
    · intro i
      rw [recordedB_eq, hnone]
    · intro v hv
      rw [hfeeds, alookup_aerase, if_neg hv]
  · intro hc
    have hn := (acontains_false_iff _ _).mp hc
    unfold Database.remove_feed
    rw [hn]

theorem claim_C8_witness :
    (acontains (⟨[("a", ⟨some "T", [("i", ex_item 1)]⟩), ("b", ⟨none, [("j", ex_item 2)]⟩)]⟩ :
        Database).feeds "a" = true) ∧
    (∃ db2, Database.remove_feed
        ⟨[("a", ⟨some "T", [("i", ex_item 1)]⟩), ("b", ⟨none, [("j", ex_item 2)]⟩)]⟩ "a" =
        .ok db2 ∧
      alookup db2.feeds "a" = none ∧
      (∀ i, recordedB db2 "a" i = false) ∧
      (∀ v, v ≠ "a" → alookup db2.feeds v =
        alookup (⟨[("a", ⟨some "T", [("i", ex_item 1)]⟩),
          ("b", ⟨none, [("j", ex_item 2)]⟩)]⟩ : Database).feeds v)) :=
  ⟨by decide,
    (claim_C8 ⟨[("a", ⟨some "T", [("i", ex_item 1)]⟩),
      ("b", ⟨none, [("j", ex_item 2)]⟩)]⟩ "a").1 (by decide)⟩

/-- C6: decode-of-encode round trips for all four codec types of
`key_value.rs`.  The `u32`/`u64` range bounds are the bounds of the Rust
field types (`FeedId(u32)`, `Duration::as_secs(): u64`), and the
at-or-after-epoch hypothesis is the claim's own timestamp condition (the
`duration_since(UNIX_EPOCH).unwrap()` in `to_bytes` requires it). -/
theorem claim_C6 :
    (∀ k : KV.FeedKey, KV.FeedKey.from_bytes k.to_bytes = .ok k) ∧
    (∀ k : KV.ItemKey, k.feed_id < 2 ^ 32 →
      KV.ItemKey.from_bytes k.to_bytes = .ok k) ∧
    (∀ v : KV.FeedValue, v.feed_id < 2 ^ 32 → 0 ≤ v.when_added →
      v.when_added.toNat / 1000000000 < 2 ^ 64 →
      ∃ b, v.to_bytes = .ok b ∧ KV.FeedValue.from_bytes b = .ok v) ∧
    (∀ v : KV.ItemValue, 0 ≤ v.when_added →
      v.when_added.toNat / 1000000000 < 2 ^ 64 →
      ∃ b, v.to_bytes = .ok b ∧ KV.ItemValue.from_bytes b = .ok v) :=
  ⟨KV.feed_key_round_trip,
    fun k h => KV.item_key_round_trip k h,
    fun v h1 h2 h3 => KV.feed_value_round_trip v h1 h2 h3,
    fun v h1 h2 => KV.item_value_round_trip v h1 h2⟩

theorem claim_C6_witness :
    KV.FeedKey.from_bytes (KV.FeedKey.to_bytes ⟨[104, 105]⟩) = .ok ⟨[104, 105]⟩ ∧
    ((42 : Nat) < 2 ^ 32 ∧
      KV.ItemKey.from_bytes (KV.ItemKey.to_bytes ⟨42, [104]⟩) = .ok ⟨42, [104]⟩) ∧
    ((7 : Nat) < 2 ^ 32 ∧ (0 : Int) ≤ 1500000000123456789 ∧
      (1500000000123456789 : Int).toNat / 1000000000 < 2 ^ 64 ∧
      ∃ b, KV.FeedValue.to_bytes ⟨7, 1500000000123456789⟩ = .ok b ∧
        KV.FeedValue.from_bytes b = .ok ⟨7, 1500000000123456789⟩) ∧
    ((0 : Int) ≤ 1500000000123456789 ∧
      (1500000000123456789 : Int).toNat / 1000000000 < 2 ^ 64 ∧
      ∃ b, KV.ItemValue.to_bytes ⟨1500000000123456789⟩ = .ok b ∧
        KV.ItemValue.from_bytes b = .ok ⟨1500000000123456789⟩) :=
  ⟨claim_C6.1 ⟨[104, 105]⟩,
    ⟨by decide, claim_C6.2.1 ⟨42, [104]⟩ (by decide)⟩,
    ⟨by decide, by decide, by decide,
      claim_C6.2.2.1 ⟨7, 1500000000123456789⟩ (by decide) (by decide) (by decide)⟩,
    ⟨by decide, by decide,
      claim_C6.2.2.2 ⟨1500000000123456789⟩ (by decide) (by decide)⟩⟩

/-- C3, counterexample: a fetch-stream error does NOT merely skip that feed
with the loop continuing; the `Err` arm of the `while` loop executes
`break`, so the feed fetched after the error is never processed: its new
item is neither sent (trace is empty) nor recorded, and the database is
returned unchanged. -/
theorem claim_C3_counterexample :
    Database.fetch_and_send_feeds ex_db0 always_ok_sender ex_opts
      [.error "boom", .ok ("a", ex_nf)] =
      .finished ex_db0 [] [.fetchError "boom"] (.ok ()) ∧
    recordedB ex_db0 "a" "i" = false := by
  decide

/-- C3 (amended): when the fetch stream yields an error result, the error
is logged and the consumption loop stops entirely: the remaining results
are never examined (rather than only that feed being skipped), and the
session still returns `Ok(())` with the state accumulated so far. -/
theorem claim_C3 (send : SenderFn) (o : FetchAndSendOptions) (db : Database)
    (xs : List FetchResult) (e : String) (rest : List FetchResult) :
    db.fetch_and_send_feeds send o (xs ++ .error e :: rest) =
      db.fetch_and_send_feeds send o (xs ++ [.error e]) ∧
    db.fetch_and_send_feeds send o (.error e :: rest) =
      .finished db [] [.fetchError e] (.ok ()) :=
  ⟨rl_stops_on_error send o xs db e rest, rl_err send o db e rest⟩

/-- C4, counterexample: narrowing a session to a feed URL that is not in
the store does not fail with any `UnknownFeed` error; the unknown URL is
silently dropped by the `should_fetch` filter and the session completes
with `Ok(())`. -/
theorem claim_C4_counterexample :
    feeds_to_fetch ⟨[]⟩ ⟨some ["x"], false⟩ = [] ∧
    Database.fetch_and_send_feeds ⟨[]⟩ always_ok_sender ⟨some ["x"], false⟩ [] =
      .finished ⟨[]⟩ [] [] (.ok ()) := by
  decide

/-- C4 (amended): the candidate fetch set is the stored feed URLs filtered
by membership in the caller-provided set; requested URLs absent from the
store are silently ignored (no error is raised for them, and they are
never fetched). -/
theorem claim_C4 (db : Database) (o : FetchAndSendOptions) (u : String) :
    u ∈ feeds_to_fetch db o ↔ (u ∈ db.feed_urls ∧ o.should_fetch u = true) := by
  unfold feeds_to_fetch Database.feed_urls
  rw [List.mem_filter]

/-- C5, counterexample: an item that is already recorded and reappears in a
fetch is NOT refreshed: the stored record keeps its old `last_observed`
timestamp (5) even though the refetched copy carries a new one (9); the
item is also not re-delivered (empty trace). -/
theorem claim_C5_counterexample :
    Database.fetch_and_send_feeds ⟨[("a", ⟨some "T", [("i", ex_item 5)]⟩)]⟩
      always_ok_sender ex_opts [.ok ("a", ⟨some "T", [("i", ex_item 9)]⟩)] =
      .finished ⟨[("a", ⟨some "T", [("i", ex_item 5)]⟩)]⟩ [] [] (.ok ()) ∧
    item_lookup ⟨[("a", ⟨some "T", [("i", ex_item 5)]⟩)]⟩ "a" "i" =
      some (ex_item 5) ∧
    ex_item 5 ≠ ex_item 9 := by
  decide

/-- C5 (amended): an already-recorded item that reappears in a fetched feed
is skipped entirely: its stored record is left completely unchanged (no
timestamp is refreshed - the only timestamp field, `last_observed`, keeps
its old value) and the item is never handed to the Sender again. -/
theorem claim_C5 (send : SenderFn) (o : FetchAndSendOptions) (db db2 : Database)
    (rs : List FetchResult) (tr : List SendAttempt) (lg : List LogEvent)
    (ret : Except String Unit)
    (hns : o.no_send = false)
    (hrwf : ∀ url nf, Except.ok (url, nf) ∈ rs → nf.WF)
    (hrun : db.fetch_and_send_feeds send o rs = .finished db2 tr lg ret) :
    (∀ f i, recordedB db f i = true → item_lookup db2 f i = item_lookup db f i) ∧
    (∀ a ∈ tr, recordedB db a.feed_url a.item_id = false) :=
  ⟨rl_preserves send o hns rs hrwf db db2 tr lg ret hrun,
    rl_freshness send o hns rs hrwf db db2 tr lg ret hrun⟩

theorem claim_C5_witness :
    ((⟨none, false⟩ : FetchAndSendOptions).no_send = false) ∧
    ((∀ f i, recordedB ⟨[("a", ⟨some "T", [("i", ex_item 5)]⟩)]⟩ f i = true →
      item_lookup ⟨[("a", ⟨some "T", [("i", ex_item 5)]⟩)]⟩ f i =
        item_lookup ⟨[("a", ⟨some "T", [("i", ex_item 5)]⟩)]⟩ f i) ∧
    (∀ a ∈ ([] : List SendAttempt),
      recordedB ⟨[("a", ⟨some "T", [("i", ex_item 5)]⟩)]⟩ a.feed_url a.item_id =
        false)) :=
  ⟨rfl, claim_C5 always_ok_sender ex_opts
    ⟨[("a", ⟨some "T", [("i", ex_item 5)]⟩)]⟩
    ⟨[("a", ⟨some "T", [("i", ex_item 5)]⟩)]⟩
    [.ok ("a", ⟨some "T", [("i", ex_item 9)]⟩)] [] [] (.ok ()) rfl
    (wf_singleton "a" ⟨some "T", [("i", ex_item 9)]⟩ (by decide))
    (by decide)⟩

/-- C1, counterexample: the Sender is NOT invoked at most once per
`(feed, item id)` pair across a sequence of sessions.  When a send fails,
the item is not recorded, so the next session hands the same pair to the
Sender again: here `("a", "i")` is handed to the Sender in session 1
(where the send fails) and again in session 2. -/
theorem claim_C1_counterexample :
    Database.fetch_and_send_feeds ex_db0 ex_fail_sender ex_opts ex_results =
      .finished ex_db1 [⟨"a", ⟨some "T", []⟩, "i", ex_item 1, .error "smtp down"⟩]
        [.sendItem true "a" none, .sendError "i" "smtp down"] (.ok ()) ∧
    Database.fetch_and_send_feeds ex_db1 always_ok_sender ex_opts ex_results =
      .finished ex_db2 [⟨"a", ⟨some "T", []⟩, "i", ex_item 1, .ok ()⟩]
        [.sendItem true "a" none] (.ok ()) := by
  decide

/-- C1 (amended): in a default-options session, an item id becomes recorded
iff it was already recorded or it was handed to the Sender and the Sender
returned success (no false positives, no false negatives); every handed
item was unrecorded at session start; every successfully sent item is
recorded afterwards; within one session no `(feed, item id)` pair is handed
to the Sender twice; and a session in which every fetched item is already
recorded performs zero sends.  Across sessions this gives at most one
SUCCESSFUL Sender invocation per pair - a pair is handed again only while
unrecorded, i.e. only if every earlier invocation failed. -/
theorem claim_C1 (send : SenderFn) (o : FetchAndSendOptions) (db db2 : Database)
    (rs : List FetchResult) (tr : List SendAttempt) (lg : List LogEvent)
    (ret : Except String Unit)
    (hns : o.no_send = false)
    (hrwf : ∀ url nf, Except.ok (url, nf) ∈ rs → nf.WF)
    (hrun : db.fetch_and_send_feeds send o rs = .finished db2 tr lg ret) :
    (∀ f i, recordedB db2 f i =
      (recordedB db f i || tr.any (fun a => decide (a.feed_url = f) &&
        decide (a.item_id = i) && a.succeeded))) ∧
    (∀ a ∈ tr, recordedB db a.feed_url a.item_id = false) ∧
    (∀ a ∈ tr, a.succeeded = true → recordedB db2 a.feed_url a.item_id = true) ∧
    ((tr.map (fun a => (a.feed_url, a.item_id))).Nodup) ∧
    ((∀ url nf, Except.ok (url, nf) ∈ rs → ∀ p ∈ nf.items,
      recordedB db url p.1 = true) → tr = []) := by
  have hmem := rl_membership send o hns rs hrwf db db2 tr lg ret hrun
  refine ⟨hmem, rl_freshness send o hns rs hrwf db db2 tr lg ret hrun, ?_,
    rl_pairs_nodup send o hns rs hrwf db db2 tr lg ret hrun,
    fun hall => rl_all_recorded send o hns rs db db2 tr lg ret hall hrun⟩
  intro a ha hs
  rw [hmem a.feed_url a.item_id]
  have hany : tr.any (fun c => decide (c.feed_url = a.feed_url) &&
      decide (c.item_id = a.item_id) && c.succeeded) = true :=
    List.any_eq_true.mpr ⟨a, ha, by simp [hs]⟩
  simp [hany]

theorem claim_C1_witness :
    ((⟨none, false⟩ : FetchAndSendOptions).no_send = false) ∧
    ((∀ f i, recordedB ex_db2 f i =
      (recordedB ex_db0 f i ||
        [(⟨"a", ⟨some "T", []⟩, "i", ex_item 1, .ok ()⟩ : SendAttempt)].any
          (fun a => decide (a.feed_url = f) && decide (a.item_id = i) &&
            a.succeeded))) ∧
    (∀ a ∈ [(⟨"a", ⟨some "T", []⟩, "i", ex_item 1, .ok ()⟩ : SendAttempt)],
      recordedB ex_db0 a.feed_url a.item_id = false) ∧
    (∀ a ∈ [(⟨"a", ⟨some "T", []⟩, "i", ex_item 1, .ok ()⟩ : SendAttempt)],
      a.succeeded = true → recordedB ex_db2 a.feed_url a.item_id = true) ∧
    (([(⟨"a", ⟨some "T", []⟩, "i", ex_item 1, .ok ()⟩ : SendAttempt)].map
      (fun a => (a.feed_url, a.item_id))).Nodup) ∧
    ((∀ url nf, Except.ok (url, nf) ∈ ex_results → ∀ p ∈ nf.items,
      recordedB ex_db0 url p.1 = true) →
      [(⟨"a", ⟨some "T", []⟩, "i", ex_item 1, .ok ()⟩ : SendAttempt)] = [])) :=
  ⟨rfl, claim_C1 always_ok_sender ex_opts ex_db0 ex_db2 ex_results
    [⟨"a", ⟨some "T", []⟩, "i", ex_item 1, .ok ()⟩]
    [.sendItem true "a" none] (.ok ()) rfl
    (wf_singleton "a" ex_nf (by decide)) (by decide)⟩

/-- C2: if during one session the Sender succeeds on the first new item
attempted and fails on the second, the session stops entirely: there are no
further send attempts for any feed (the trace is exactly those two
attempts), the resulting item records are the initial ones plus exactly
the first item, and the second item is neither recorded nor delivered. -/
theorem claim_C2 (send : SenderFn) (o : FetchAndSendOptions) (db db2 : Database)
    (rs : List FetchResult) (tr : List SendAttempt) (lg : List LogEvent)
    (ret : Except String Unit) (a1 a2 : SendAttempt) (rest2 : List SendAttempt)
    (hns : o.no_send = false)
    (hrwf : ∀ url nf, Except.ok (url, nf) ∈ rs → nf.WF)
    (hrun : db.fetch_and_send_feeds send o rs = .finished db2 tr lg ret)
    (htr : tr = a1 :: a2 :: rest2)
    (h1 : a1.succeeded = true)
    (h2 : a2.succeeded = false) :
    rest2 = [] ∧
    (∀ f i, recordedB db2 f i =
      (recordedB db f i || (decide (a1.feed_url = f) && decide (a1.item_id = i)))) ∧
    recordedB db2 a2.feed_url a2.item_id = false ∧
    recordedB db a1.feed_url a1.item_id = false := by
  subst htr
  have hlast := rl_err_last send o hns rs db db2 _ lg ret hrun
  have hrest : rest2 = [] := by
    cases hr : rest2 with
    | nil => rfl
    | cons c t =>
      exfalso
      have hmem2 : a2 ∈ (a1 :: a2 :: rest2).dropLast := by
        rw [hr, List.dropLast_cons₂, List.dropLast_cons₂]
        simp
      have hx := hlast a2 hmem2
      rw [hx] at h2
      exact Bool.true_eq_false.mp h2
  subst hrest
  have hmem := rl_membership send o hns rs hrwf db db2 _ lg ret hrun
  have hfresh := rl_freshness send o hns rs hrwf db db2 _ lg ret hrun
  have hnd := rl_pairs_nodup send o hns rs hrwf db db2 _ lg ret hrun
  have hne : ¬(a1.feed_url = a2.feed_url ∧ a1.item_id = a2.item_id) := by
    intro he
    simp only [List.map_cons, List.map_nil, List.nodup_cons] at hnd
    exact hnd.1 (by simp [he.1, he.2])
  refine ⟨rfl, ?_, ?_, hfresh a1 (by simp)⟩
  · intro f i
    rw [hmem f i]
    simp [h1, h2]
  · rw [hmem a2.feed_url a2.item_id, hfresh a2 (by simp)]
    by_cases hfe : a1.feed_url = a2.feed_url
    · by_cases hie : a1.item_id = a2.item_id
      · exact absurd ⟨hfe, hie⟩ hne
      · simp [h2, hie]
    · simp [h2, hfe]

theorem claim_C2_witness :
    ((⟨none, false⟩ : FetchAndSendOptions).no_send = false) ∧
    (([] : List SendAttempt) = [] ∧
    (∀ f i, recordedB ex_db2b f i =
      (recordedB ex_db0 f i ||
        (decide ((⟨"a", ⟨some "T", [("i2", ex_item 2), ("i3", ex_item 3)]⟩, "i1",
          ex_item 1, .ok ()⟩ : SendAttempt).feed_url = f) &&
          decide ((⟨"a", ⟨some "T", [("i2", ex_item 2), ("i3", ex_item 3)]⟩, "i1",
            ex_item 1, .ok ()⟩ : SendAttempt).item_id = i)))) ∧
    recordedB ex_db2b
      (⟨"a", ⟨some "T", [("i3", ex_item 3)]⟩, "i2", ex_item 2,
        .error "smtp down"⟩ : SendAttempt).feed_url
      (⟨"a", ⟨some "T", [("i3", ex_item 3)]⟩, "i2", ex_item 2,
        .error "smtp down"⟩ : SendAttempt).item_id = false ∧
    recordedB ex_db0
      (⟨"a", ⟨some "T", [("i2", ex_item 2), ("i3", ex_item 3)]⟩, "i1", ex_item 1,
        .ok ()⟩ : SendAttempt).feed_url
      (⟨"a", ⟨some "T", [("i2", ex_item 2), ("i3", ex_item 3)]⟩, "i1", ex_item 1,
        .ok ()⟩ : SendAttempt).item_id = false) :=
  ⟨rfl, claim_C2 ex_sender2 ex_opts ex_db0 ex_db2b [.ok ("a", ex_nf3)]
    [⟨"a", ⟨some "T", [("i2", ex_item 2), ("i3", ex_item 3)]⟩, "i1", ex_item 1, .ok ()⟩,
      ⟨"a", ⟨some "T", [("i3", ex_item 3)]⟩, "i2", ex_item 2, .error "smtp down"⟩]
    [.sendItem true "a" none, .sendItem true "a" none, .sendError "i2" "smtp down"]
    (.ok ())
    ⟨"a", ⟨some "T", [("i2", ex_item 2), ("i3", ex_item 3)]⟩, "i1", ex_item 1, .ok ()⟩
    ⟨"a", ⟨some "T", [("i3", ex_item 3)]⟩, "i2", ex_item 2, .error "smtp down"⟩
    [] rfl (wf_singleton "a" ex_nf3 (by decide)) (by decide) rfl (by decide) (by decide)⟩

/-- C7, counterexample: listing the feed URLs does not follow the
byte-lexicographic order of encoded feed keys.  The store is a `HashMap`
(modelled with insertion-order enumeration): after adding `"http://b"`
then `"http://a"`, `feed_urls` yields `["http://b", "http://a"]`, although
the encoded feed key of `"http://a"` (key kind then the URL's UTF-8 bytes,
listed here for the two ASCII URLs) is byte-lexicographically smaller than
that of `"http://b"`. -/
theorem claim_C7_counterexample :
    Database.add_feed ⟨[]⟩ "http://b" = .ok ⟨[("http://b", Feed.new)]⟩ ∧
    Database.add_feed ⟨[("http://b", Feed.new)]⟩ "http://a" =
      .ok ⟨[("http://b", Feed.new), ("http://a", Feed.new)]⟩ ∧
    Database.feed_urls ⟨[("http://b", Feed.new), ("http://a", Feed.new)]⟩ =
      ["http://b", "http://a"] ∧
    "http://a".data.map (fun c => c.toNat) = [104, 116, 116, 112, 58, 47, 47, 97] ∧
    "http://b".data.map (fun c => c.toNat) = [104, 116, 116, 112, 58, 47, 47, 98] ∧
    bytes_lex_lt (KV.FeedKey.to_bytes ⟨[104, 116, 116, 112, 58, 47, 47, 97]⟩)
      (KV.FeedKey.to_bytes ⟨[104, 116, 116, 112, 58, 47, 47, 98]⟩) = true ∧
    Database.feed_urls ⟨[("http://b", Feed.new), ("http://a", Feed.new)]⟩ ≠
      ["http://a", "http://b"] := by
  decide

/-- C7 (amended): listing the feed URLs is a read-only finite traversal
yielding the URL of each stored feed exactly once; the order is the
HashMap's unspecified iteration order (insertion order in this model), not
a sorted key order. -/
theorem claim_C7 (db : Database) (hwf : db.WF) :
    db.feed_urls.Nodup ∧ ∀ u, u ∈ db.feed_urls ↔ acontains db.feeds u = true :=
  ⟨hwf.1, fun u => (acontains_iff_mem_keys db.feeds u).symm⟩

theorem claim_C7_witness :
    (ex_db2 : Database).WF ∧
    ((Database.feed_urls ex_db2).Nodup ∧
      ∀ u, u ∈ Database.feed_urls ex_db2 ↔ acontains ex_db2.feeds u = true) :=
  ⟨by decide, claim_C7 ex_db2 (by decide)⟩

/-- C9: a session with `no_send` enabled never invokes the Sender (its
trace is empty - with any sender, even an always-failing one), yet it
updates the database exactly as a normal session with an always-succeeding
sender would, so each new item becomes recorded without having been
delivered; and in any later normal session, every item handed to the
Sender is unrecorded at that session's start - in particular, nothing the
`no_send` session recorded is ever sent. -/
theorem claim_C9 (send : SenderFn) (fu : Option (List String)) (db : Database)
    (rs : List FetchResult) :
    ((Database.fetch_and_send_feeds db send ⟨fu, true⟩ rs).final_db =
      (Database.fetch_and_send_feeds db always_ok_sender ⟨fu, false⟩ rs).final_db) ∧
    (∀ db2 tr lg ret,
      Database.fetch_and_send_feeds db send ⟨fu, true⟩ rs = .finished db2 tr lg ret →
      tr = []) ∧
    (∀ db2 tr lg ret,
      Database.fetch_and_send_feeds db send ⟨fu, true⟩ rs = .finished db2 tr lg ret →
      ∀ (send2 : SenderFn) (o2 : FetchAndSendOptions) (rs2 : List FetchResult)
        (db3 : Database) (tr2 : List SendAttempt) (lg2 : List LogEvent)
        (ret2 : Except String Unit),
        o2.no_send = false →
        (∀ url nf, Except.ok (url, nf) ∈ rs2 → nf.WF) →
        Database.fetch_and_send_feeds db2 send2 o2 rs2 = .finished db3 tr2 lg2 ret2 →
        ∀ a ∈ tr2, recordedB db2 a.feed_url a.item_id = false) :=
  ⟨rl_no_send_db send fu rs db,
    fun db2 tr lg ret h => rl_no_send_trace send ⟨fu, true⟩ rfl rs db db2 tr lg ret h,
    fun db2 tr lg ret _ send2 o2 rs2 db3 tr2 lg2 ret2 hns2 hrwf2 hrun2 =>
      rl_freshness send2 o2 hns2 rs2 hrwf2 db2 db3 tr2 lg2 ret2 hrun2⟩

theorem claim_C9_witness :
    ((Database.fetch_and_send_feeds ex_db0 ex_fail_sender ⟨none, true⟩
        ex_results).final_db =
      (Database.fetch_and_send_feeds ex_db0 always_ok_sender ⟨none, false⟩
        ex_results).final_db) ∧
    (Database.fetch_and_send_feeds ex_db0 ex_fail_sender ⟨none, true⟩ ex_results =
      .finished ex_db2 [] [.sendItem false "a" none] (.ok ())) ∧
    (([] : List SendAttempt) = []) ∧
    (Database.fetch_and_send_feeds ex_db2 always_ok_sender ex_opts ex_results =
      .finished ex_db2 [] [] (.ok ())) ∧
    (∀ a ∈ ([] : List SendAttempt),
      recordedB ex_db2 a.feed_url a.item_id = false) :=
  ⟨(claim_C9 ex_fail_sender none ex_db0 ex_results).1,
    by decide,
    (claim_C9 ex_fail_sender none ex_db0 ex_results).2.1 ex_db2 []
      [.sendItem false "a" none] (.ok ()) (by decide),
    by decide,
    (claim_C9 ex_fail_sender none ex_db0 ex_results).2.2 ex_db2 []
      [.sendItem false "a" none] (.ok ()) (by decide)
      always_ok_sender ex_opts ex_results ex_db2 [] [] (.ok ()) rfl
      (wf_singleton "a" ex_nf (by decide)) (by decide)⟩

end Rss2Email
